import Mathlib

/-!
# IM920s serial radio driver: shallow embedding of `IM920s.go`

Byte strings (`[]byte`, and Go `string`s, which are byte sequences) are lists
of natural numbers below 256.  The serial transport `github.com/tarm/serial`
is an external collaborator: it is represented by a record holding the bytes
that will arrive, the log of the writes issued so far, and the scheduled
outcomes of the next writes and flushes.  A read on exhausted input fails
(the real port would block), so every loop of the driver ends.  The Go `int`
is taken to have 64 bits.  A method returning `error` returns `Option Err`
(`none` is `nil`); a method that can stop with a run-time panic returns `Res`.
-/

set_option linter.dupNamespace false

namespace IM920s

/-! ## Errors and outcomes -/

/-- Errors that the driver can return. -/
inductive Err where
  /-- An error reported by the serial transport. -/
  | io (code : Nat)
  /-- The transport has no more bytes to deliver. -/
  | eof
  /-- The value `newError("unknown bahaviour")` of `CheckResult`. -/
  | unknownBehaviour
  /-- An error of `fmt.Sscan` or `fmt.Sscanf`. -/
  | scan
  /-- An error of `strconv.Atoi`. -/
  | atoi
  deriving DecidableEq, Repr

/-- Outcome of a call: a value, a returned `error`, or a run-time panic
(index out of range). -/
inductive Res (α : Type) where
  | ok (a : α)
  | err (e : Err)
  | panic
  deriving DecidableEq, Repr

/-! ## Data model (lines 12-30) -/

structure Config where
  Id : Int
  Name : String
  Baud : Int
  TextMode : Bool
  deriving DecidableEq, Repr

structure Packet where
  sender : Int
  rssi : Int
  data : List Nat
  deriving DecidableEq, Repr

/-! ## The serial transport -/

/-- One outcome of a one-byte `Read` on the transport. -/
inductive RxEvent where
  | byte (b : Nat)
  | fail (e : Err)
  deriving DecidableEq, Repr

/-- State of the serial transport: `rx` the outcomes of the coming one-byte
reads, `tx` the writes issued so far (oldest first), `txFail` and `flushFail`
the scheduled outcomes of the coming writes and flushes (`none`, or an
exhausted schedule, is success), `flushes` the number of flushes so far. -/
structure Serial where
  rx : List RxEvent
  tx : List (List Nat)
  txFail : List (Option Err)
  flushes : Nat
  flushFail : List (Option Err)
  deriving DecidableEq, Repr

/-- `serial.Port.Write(bs)`: the write is logged; it returns `(len(bs), nil)`
or `(0, err)` as scheduled. -/
def Serial.Write (s : Serial) (bs : List Nat) : Serial × Nat × Option Err :=
  match s.txFail with
  | some e :: rest => ({ s with tx := s.tx ++ [bs], txFail := rest }, 0, some e)
  | none :: rest => ({ s with tx := s.tx ++ [bs], txFail := rest }, bs.length, none)
  | [] => ({ s with tx := s.tx ++ [bs] }, bs.length, none)

/-- `serial.Port.Read(b[:])` with a one-byte buffer: delivers the next byte,
or fails as scheduled; when nothing more arrives it fails with `eof`. -/
def Serial.Read (s : Serial) : Serial × Except Err Nat :=
  match s.rx with
  | [] => (s, .error .eof)
  | .byte b :: rest => ({ s with rx := rest }, .ok b)
  | .fail e :: rest => ({ s with rx := rest }, .error e)

/-- `serial.Port.Flush()`: returns `nil` or an error, as scheduled. -/
def Serial.Flush (s : Serial) : Serial × Option Err :=
  match s.flushFail with
  | some e :: rest => ({ s with flushes := s.flushes + 1, flushFail := rest }, some e)
  | none :: rest => ({ s with flushes := s.flushes + 1, flushFail := rest }, none)
  | [] => ({ s with flushes := s.flushes + 1 }, none)

/-- The connection (lines 18-21). -/
structure Port where
  Port : Serial
  Config : Config
  deriving DecidableEq, Repr

/-! ## Byte strings -/

/-- Bytes of an ASCII string literal, as `[]byte("...")` gives them. -/
def ascii (s : String) : List Nat := s.toList.map Char.toNat

/-- The lowercase hexadecimal digit character of a value below 16. -/
def hexChar (d : Nat) : Nat := if d < 10 then 48 + d else 87 + d

/-- Hexadecimal digit characters of `n`, most significant first, prepended to
`acc`; `fuel` bounds the number of digits. -/
def hexDigitsAux : Nat → Nat → List Nat → List Nat
  | 0, _, acc => acc
  | fuel + 1, n, acc =>
    if n < 16 then hexChar n :: acc
    else hexDigitsAux fuel (n / 16) (hexChar (n % 16) :: acc)

/-- Lowercase hexadecimal rendering of a natural number (`"0"` for zero). -/
def hexDigits (n : Nat) : List Nat := hexDigitsAux (n + 1) n []

/-- Pad on the left with `'0'` up to `width` characters. -/
def zeroPad (width : Nat) (ds : List Nat) : List Nat :=
  List.replicate (width - ds.length) 48 ++ ds

/-- `fmt.Sprintf("%0<width>x", v)` for an integer `v`: lowercase hexadecimal,
zero-padded to `width`; a negative value is rendered as `-` followed by the
magnitude zero-padded to `width - 1`. -/
def SprintfHex (width : Nat) (v : Int) : List Nat :=
  if v < 0 then 45 :: zeroPad (width - 1) (hexDigits v.natAbs)
  else zeroPad width (hexDigits v.natAbs)

/-- Assignment `s[i] = v` to a slice: a run-time panic when `i` is out of
range. -/
def setIdx (s : List Nat) (i : Nat) (v : Nat) : Res (List Nat) :=
  if i < s.length then .ok (s.set i v) else .panic

/-- The slice expression `s[lo:hi]` (used only within bounds). -/
def slice (s : List Nat) (lo hi : Nat) : List Nat := (s.take hi).drop lo

/-! ## Line framer (lines 67-117) -/

/-- Method `Port.Write` (lines 67-72). -/
def Write (port : Port) (bs : List Nat) : Port × Nat × Option Err :=
  let bs := if bs.length > 32 then bs.take 32 else bs
  let r := port.Port.Write bs
  ({ port with Port := r.1 }, r.2)

/-- Method `Port.WriteLine` (lines 73-78). -/
def WriteLine (port : Port) (bs : List Nat) : Port × Nat × Option Err :=
  let bs := if bs.length > 30 then bs.take 30 ++ ascii "\r\n" else bs
  let r := port.Port.Write bs
  ({ port with Port := r.1 }, r.2)

/-- The loop of `ReadLine` (lines 84-104) from index `i`, with
`fuel = len(bs) - i` iterations left.  Returns the transport, the buffer and
the pair `(i, err)`. -/
def ReadLineLoop : Nat → Nat → List Nat → Serial → Serial × List Nat × Nat × Option Err
  | 0, i, bs, s => (s, bs, i, none)
  | fuel + 1, i, bs, s =>
    match s.Read with
    | (s1, .error e) => (s1, bs, i, some e)
    | (s1, .ok b) =>
      if b = 0 then (s1, bs, i, none)
      else if b = 13 then
        match s1.Read with
        | (s2, .error e) => (s2, bs, i, some e)
        | (s2, .ok _) => (s2, bs, i, none)
      else ReadLineLoop fuel (i + 1) (bs.set i b) s1

/-- Method `Port.ReadLine` (lines 80-107): fills `bs` and returns the buffer
and the pair `(n, err)`. -/
def ReadLine (port : Port) (bs : List Nat) : Port × List Nat × Nat × Option Err :=
  let r := ReadLineLoop bs.length 0 bs port.Port
  ({ port with Port := r.1 }, r.2)

/-- Method `Port.ReadStringLine` (lines 108-117). -/
def ReadStringLine (port : Port) : Port × Except Err (List Nat) :=
  let bs := List.replicate 32 0
  match ReadLine port bs with
  | (port1, _, _, some e) => (port1, .error e)
  | (port1, bs1, n, none) => (port1, .ok (bs1.take n))

/-- Method `Port.Flush` (lines 187-189). -/
def Flush (port : Port) : Port × Option Err :=
  let r := port.Port.Flush
  ({ port with Port := r.1 }, r.2)

/-- Method `Port.CheckResult` (lines 190-205): `none` is the `nil` error. -/
def CheckResult (port : Port) : Port × Option Err :=
  match Flush port with
  | (port1, some e) => (port1, some e)
  | (port1, none) =>
    match ReadStringLine port1 with
    | (port2, .error e) => (port2, some e)
    | (port2, .ok s) =>
      if s ≠ ascii "OK" then (port2, some .unknownBehaviour)
      else (port2, none)

/-! ## Payload codec and transmitter (lines 207-295) -/

/-- The Go `error` result `e` as an outcome. -/
def Res.ofError (e : Option Err) : Res Unit :=
  match e with
  | some e => .err e
  | none => .ok ()

/-- The loop `for i, b := range data` of lines 216-220 and of lines 252-256,
from index `i`: the two characters of `fmt.Sprintf("%02x", b)` are stored at
`data2[i*2]` and `data2[i*2+1]`. -/
def hexEncodeLoop : List Nat → Nat → List Nat → Res (List Nat)
  | [], _, data2 => .ok data2
  | b :: rest, i, data2 =>
    let data3 := SprintfHex 2 (b : Int)
    match setIdx data2 (i * 2) (data3.getD 0 0) with
    | .ok d =>
      match setIdx d (i * 2 + 1) (data3.getD 1 0) with
      | .ok d2 => hexEncodeLoop rest (i + 1) d2
      | r => r
    | r => r

/-- The branch `len(data) <= 32` of `SendTo` (lines 208-229). -/
def SendToDirect (port : Port) (addr : Int) (data : List Nat) : Port × Res Unit :=
  let size := data.length
  let enc :=
    if port.Config.TextMode then Res.ok data
    else hexEncodeLoop data 0 (List.replicate (size * 2) 0)
  match enc with
  | .panic => (port, .panic)
  | .err e => (port, .err e)
  | .ok data2 =>
    let tx := ascii "TXDU " ++ SprintfHex 4 addr
    match WriteLine port (tx ++ data2) with
    | (port1, _, some e) => (port1, .err e)
    | (port1, _, none) =>
      let r := CheckResult port1
      (r.1, Res.ofError r.2)

/-- The branch `len(data) > 32` of `SendTo` (lines 232-240) from index `i`.
The recursive calls `port.SendTo(addr, data[i:i+8])` and
`port.SendTo(addr, data[i:])` receive at most 8 bytes, so each of them runs the
branch `len(data) <= 32`, which is `SendToDirect`.  The loop index grows by 8,
so a `fuel` of `len(data)` is never used up. -/
def SendToChunks : Nat → Port → Int → List Nat → Nat → Port × Res Unit
  | 0, port, addr, data, i => SendToDirect port addr (data.drop i)
  | fuel + 1, port, addr, data, i =>
    if i < data.length - 8 then
      match SendToDirect port addr (slice data i (i + 8)) with
      | (port1, .ok _) => SendToChunks fuel port1 addr data (i + 8)
      | r => r
    else SendToDirect port addr (data.drop i)

/-- Method `Port.SendTo` (lines 207-242). -/
def SendTo (port : Port) (addr : Int) (data : List Nat) : Port × Res Unit :=
  if data.length ≤ 32 then SendToDirect port addr data
  else SendToChunks data.length port addr data 0

/-- The branch `size <= 32` of `Broadcast` (lines 246-268). -/
def BroadcastDirect (port : Port) (data : List Nat) : Port × Res Unit :=
  let size := data.length
  let enc :=
    if port.Config.TextMode then Res.ok data
    else hexEncodeLoop data 0 (List.replicate size 0)
  match enc with
  | .panic => (port, .panic)
  | .err e => (port, .err e)
  | .ok data2 =>
    let tx := if size ≤ 8 then ascii "TXDA " else ascii "TXDT "
    let tx := tx ++ data2
    let w := Write port (tx ++ ascii "\r\n")
    let r := CheckResult w.1
    (r.1, Res.ofError r.2)

/-- One chunk of the branch `size > 32` of `Broadcast`: the recursive call
followed by `CheckResult` (lines 272-280 and 283-291).  The recursive call
receives at most 8 bytes, so it runs the branch `size <= 32`. -/
def BroadcastChunk (port : Port) (chunk : List Nat) : Port × Res Unit :=
  match BroadcastDirect port chunk with
  | (port1, .ok _) =>
    let r := CheckResult port1
    (r.1, Res.ofError r.2)
  | r => r

/-- The branch `size > 32` of `Broadcast` (lines 270-293) from index `i`; the
`fuel` of `len(data)` is never used up. -/
def BroadcastChunks : Nat → Port → List Nat → Nat → Port × Res Unit
  | 0, port, data, i => BroadcastChunk port (data.drop i)
  | fuel + 1, port, data, i =>
    if i < data.length - 8 then
      match BroadcastChunk port (slice data i (i + 8)) with
      | (port1, .ok _) => BroadcastChunks fuel port1 data (i + 8)
      | r => r
    else BroadcastChunk port (data.drop i)

/-- Method `Port.Broadcast` (lines 244-295). -/
def Broadcast (port : Port) (data : List Nat) : Port × Res Unit :=
  if data.length ≤ 32 then BroadcastDirect port data
  else BroadcastChunks data.length port data 0

/-! ## Text-mode toggle (lines 157-181) -/

/-- Method `Port.SetTextMode` (lines 157-181). -/
def SetTextMode (port : Port) (textMode : Bool) : Port × Option Err :=
  if port.Config.TextMode = textMode then (port, none)
  else
    let w := if textMode then WriteLine port (ascii "ECIO") else WriteLine port (ascii "DCIO")
    match w with
    | (port1, _, some e) => (port1, some e)
    | (port1, _, none) =>
      match CheckResult port1 with
      | (port2, some e) => (port2, some e)
      | (port2, none) =>
        ({ port2 with Config := { port2.Config with TextMode := textMode } }, none)

/-! ## Parameter store (lines 119-155) -/

/-- The Go `map[string][]byte`. -/
def Params : Type := List Nat → Option (List Nat)

/-- The empty map `make(map[string][]byte)`. -/
def Params.empty : Params := fun _ => none

/-- The assignment `params[key] = val`. -/
def Params.set (m : Params) (key val : List Nat) : Params :=
  fun k => if k = key then some val else m k

/-- The lookup `params[key]`: the nil (empty) slice for a missing key. -/
def Params.get (m : Params) (key : List Nat) : List Nat := (m key).getD []

/-- `bytes.Index(s, sep)`: the index of the first occurrence of `sep` in `s`;
`none` stands for `-1`. -/
def Index : List Nat → List Nat → Option Nat
  | [], sep => if sep = [] then some 0 else none
  | b :: rest, sep =>
    if sep.isPrefixOf (b :: rest) then some 0 else (Index rest sep).map (· + 1)

/-- `strings.Contains(s, sub)`. -/
def Contains (s sub : List Nat) : Bool := s.tails.any (fun t => sub.isPrefixOf t)

/-- An ASCII decimal digit. -/
def isDecimalDigit (c : Nat) : Bool := decide (48 ≤ c) && decide (c ≤ 57)

/-- Value of a string of decimal digits. -/
def decimalValue (ds : List Nat) : Nat := ds.foldl (fun n c => n * 10 + (c - 48)) 0

/-- `strconv.Atoi(s)` with a 64-bit `int`: an optional sign followed by one or
more decimal digits whose value fits; `none` stands for the returned error. -/
def Atoi (s : List Nat) : Option Int :=
  let neg := s.head? = some 45
  let ds := if s.head? = some 45 ∨ s.head? = some 43 then s.drop 1 else s
  if ds = [] ∨ ds.all isDecimalDigit = false then none
  else
    let v : Int := if neg then -(decimalValue ds : Int) else (decimalValue ds : Int)
    if -(2 ^ 63 : Int) ≤ v ∧ v < (2 ^ 63 : Int) then some v else none

/-- The loop of `ReadParams` (lines 127-144).  Every iteration that does not
return consumes at least one read, so a `fuel` above the number of pending
reads is never used up. -/
def ReadParamsLoop : Nat → Port → Params → Port × Params × Option Err
  | 0, port, params => (port, params, some .eof)
  | fuel + 1, port, params =>
    match ReadLine port (List.replicate 64 0) with
    | (port1, _, _, some e) => (port1, params, some e)
    | (port1, bs, n, none) =>
      let bs := bs.take n
      match Index bs (ascii ":") with
      | none => (port1, params.set (ascii "_") bs, none)
      | some i => ReadParamsLoop fuel port1 (params.set (bs.take i) (bs.drop (i + 1)))

/-- Method `Port.ReadParams` (lines 119-155); `params = none` is the nil map.
Returns the connection, the map and the error. -/
def ReadParams (port : Port) (params : Option Params) : Port × Params × Option Err :=
  let port1 := (WriteLine port (ascii "RPRM")).1
  let port2 := (Flush port1).1
  let params := match params with
    | none => Params.empty
    | some m => m
  match ReadParamsLoop (port2.Port.rx.length + 1) port2 params with
  | (port3, params, some e) => (port3, params, some e)
  | (port3, params, none) =>
    let port4 : Port :=
      { port3 with Config :=
          { port3.Config with TextMode := Contains (params.get (ascii "_")) (ascii "ECIO") } }
    match Atoi (params.get (ascii "STNN")) with
    | none => (port4, params, some .atoi)
    | some id => ({ port4 with Config := { port4.Config with Id := id } }, params, none)

/-! ## Packet receiver (lines 307-355) -/

/-- An ASCII hexadecimal digit, as `fmt` scanning accepts them. -/
def isHexDigit (c : Nat) : Bool :=
  (decide (48 ≤ c) && decide (c ≤ 57)) || (decide (97 ≤ c) && decide (c ≤ 102))
    || (decide (65 ≤ c) && decide (c ≤ 70))

/-- Value of an ASCII hexadecimal digit. -/
def hexVal (c : Nat) : Nat :=
  if c ≤ 57 then c - 48 else if 97 ≤ c then c - 87 else c - 55

/-- `fmt.Sscanf(string(data[i:i+1]), "%02x", &b)` with `b` a byte (line 333).
The input is the one-byte string `data[i:i+1]`: the scan succeeds exactly when
that byte is a hexadecimal digit, and yields its value. -/
def SscanfHexByte : List Nat → Except Err Nat
  | [c] => if isHexDigit c then .ok (hexVal c) else .error .scan
  | _ => .error .scan

/-- The loop of lines 331-338 from index `i`; `i` grows by 2, so the `fuel` of
`len(data)` is never used up. -/
def hexDecodeLoop (data : List Nat) : Nat → Nat → List Nat → Res (List Nat)
  | 0, _, data2 => .ok data2
  | fuel + 1, i, data2 =>
    if i < data.length then
      match SscanfHexByte (slice data i (i + 1)) with
      | .error e => .err e
      | .ok b =>
        match setIdx data2 (i / 2) b with
        | .ok d => hexDecodeLoop data fuel (i + 2) d
        | r => r
    else .ok data2

/-- The binary-mode decoding step of `ReceivePacket` (lines 330-338) on the
payload slice `data` and the payload length `m`. -/
def decodeBinary (data : List Nat) (m : Nat) : Res (List Nat) :=
  hexDecodeLoop data data.length 0 (List.replicate (m / 2) 0)

/-- `fmt.Sscan(str, "%x", &v)` as called on lines 342 and 347.  `Sscan` takes
no format string: its operands here are the string `"%x"` and the pointer
`&v`, stored into in that order.  The first operand is not a pointer, so the
scan stops at it with the error `type not a pointer: string`: nothing of `str`
is read and `v` keeps its value.  Returns `v` and the error. -/
def SscanPercentX (_str : List Nat) (v : Int) : Int × Option Err := (v, some .scan)

/-- The loop of `ReceivePacket` (lines 310-354).  Every iteration that does
not return consumes at least one read, so a `fuel` above the number of
pending reads is never used up. -/
def ReceivePacketLoop : Nat → Port → Port × Res Packet
  | 0, port => (port, .err .eof)
  | fuel + 1, port =>
    match ReadLine port (List.replicate 32 0) with
    | (port1, _, _, some e) => (port1, .err e)
    | (port1, bs, n, none) =>
      if n ≥ 11 then
        let data := bs.drop 11
        let m := n - 11
        let data := if data.head? = some 32 then data.drop 1 else data
        let dec := if port1.Config.TextMode then Res.ok data else decodeBinary data m
        match dec with
        | .panic => (port1, .panic)
        | .err e => (port1, .err e)
        | .ok data2 =>
          match SscanPercentX (slice bs 3 7) 0 with
          | (_, some e) => (port1, .err e)
          | (sender, none) =>
            let rssi := (SscanPercentX (slice bs 8 10) 0).1
            (port1, .ok ⟨sender, -rssi, data2⟩)
      else ReceivePacketLoop fuel port1

/-- Method `Port.ReceivePacket` (lines 307-355). -/
def ReceivePacket (port : Port) : Port × Res Packet :=
  ReceivePacketLoop (port.Port.rx.length + 1) port

/-! ## Baud rate and clock (lines 369-414) -/

structure TimeInfo where
  H : Int
  M : Int
  S : Int
  Ms : Int
  Sync : Bool
  deriving DecidableEq, Repr

/-- Decimal digit characters of `n`, most significant first, prepended to
`acc`; `fuel` bounds the number of digits. -/
def decDigitsAux : Nat → Nat → List Nat → List Nat
  | 0, _, acc => acc
  | fuel + 1, n, acc =>
    if n < 10 then (48 + n) :: acc
    else decDigitsAux fuel (n / 10) ((48 + n % 10) :: acc)

/-- Decimal rendering of a natural number (`"0"` for zero). -/
def decDigits (n : Nat) : List Nat := decDigitsAux (n + 1) n []

/-- `fmt.Sprintf("%0<width>v", v)` for an integer `v`, and `fmt.Sprintf("%v", v)`
for `width = 0`: decimal, zero-padded to `width`; a negative value is rendered
as `-` followed by the magnitude zero-padded to `width - 1`. -/
def SprintfDec (width : Nat) (v : Int) : List Nat :=
  if v < 0 then 45 :: zeroPad (width - 1) (decDigits v.natAbs)
  else zeroPad width (decDigits v.natAbs)

/-- Method `Port.SetBaud` (lines 369-377); `Baud` is an `int`. -/
def SetBaud (port : Port) (baud : Int) : Port × Option Err :=
  let tx := ascii "SBRT " ++ SprintfDec 0 baud
  match WriteLine port tx with
  | (port1, _, some e) => (port1, some e)
  | (port1, _, none) => CheckResult port1

/-- Method `Port.SetTime` (lines 379-387). -/
def SetTime (port : Port) (h m s : Int) : Port × Option Err :=
  let tx := ascii "STCK " ++ SprintfDec 2 h ++ ascii " " ++ SprintfDec 2 m ++ ascii " "
    ++ SprintfDec 2 s
  match WriteLine port tx with
  | (port1, _, some e) => (port1, some e)
  | (port1, _, none) => CheckResult port1

/-- A space for `fmt` scanning, other than the newline (ASCII input). -/
def isScanSpace (c : Nat) : Bool :=
  c == 32 || c == 9 || c == 11 || c == 12 || c == 13

/-- The `SkipSpace` of `fmt.Sscanf`: spaces are skipped, a newline is an
error. -/
def skipSpace : List Nat → Except Err (List Nat)
  | [] => .ok []
  | c :: rest =>
    if c = 10 then .error .scan
    else if isScanSpace c then skipSpace rest
    else .ok (c :: rest)

/-- One verb `%d` of `fmt.Sscanf` into an `int`, with the width `width` when
it has one: leading spaces are skipped, then an optional sign and at least one
decimal digit are read, within `width` characters; the value must fit 64 bits.
Returns the value and the input left. -/
def scanIntField (width : Option Nat) (inp : List Nat) : Except Err (Int × List Nat) :=
  match skipSpace inp with
  | .error e => .error e
  | .ok inp1 =>
    let lim := width.getD inp1.length
    let signed := decide (0 < lim) && (inp1.head? == some 45 || inp1.head? == some 43)
    let neg := decide (0 < lim) && inp1.head? == some 45
    let inp2 := if signed then inp1.drop 1 else inp1
    let lim2 := if signed then lim - 1 else lim
    let ds := (inp2.take lim2).takeWhile isDecimalDigit
    if ds = [] then .error .scan
    else
      let v : Int := if neg then -(decimalValue ds : Int) else (decimalValue ds : Int)
      if -(2 ^ 63 : Int) ≤ v ∧ v < (2 ^ 63 : Int) then .ok (v, inp2.drop ds.length)
      else .error .scan

/-- A literal character of the format: the next input character must be it. -/
def scanLiteral (c : Nat) : List Nat → Except Err (List Nat)
  | [] => .error .scan
  | x :: rest => if x = c then .ok rest else .error .scan

/-- The space of the format before `%c`: at the end of the input it matches
nothing; otherwise the next input character must be a space other than a
newline, and the spaces that follow are skipped. -/
def scanFormatSpace : List Nat → Except Err (List Nat)
  | [] => .ok []
  | x :: rest =>
    if x = 10 then .error .scan
    else if isScanSpace x then .ok (rest.dropWhile isScanSpace)
    else .error .scan

/-- The verb `%c` into a `rune`: the next input character (exact for ASCII
input). -/
def scanRune : List Nat → Except Err Int
  | [] => .error .scan
  | x :: _ => .ok (x : Int)

/-- Result of the scan of line 403: the number `n` of operands stored, the
error, and the variables `h, m, s, ms, c`, zero where nothing was stored. -/
structure TimeScan where
  n : Nat
  err : Option Err
  h : Int
  m : Int
  s : Int
  ms : Int
  c : Int
  deriving DecidableEq, Repr

/-- `fmt.Sscanf(str, "%02d:%02d:%02d.%d %c", &h, &m, &s, &ms, &c)` (line 403):
the operands are stored in order until the input stops matching the format. -/
def SscanfTime (str : List Nat) : TimeScan :=
  match scanIntField (some 2) str with
  | .error e => ⟨0, some e, 0, 0, 0, 0, 0⟩
  | .ok (h, r1) =>
    match (scanLiteral 58 r1).bind (scanIntField (some 2)) with
    | .error e => ⟨1, some e, h, 0, 0, 0, 0⟩
    | .ok (m, r2) =>
      match (scanLiteral 58 r2).bind (scanIntField (some 2)) with
      | .error e => ⟨2, some e, h, m, 0, 0, 0⟩
      | .ok (s, r3) =>
        match (scanLiteral 46 r3).bind (scanIntField none) with
        | .error e => ⟨3, some e, h, m, s, 0, 0⟩
        | .ok (ms, r4) =>
          match (scanFormatSpace r4).bind scanRune with
          | .error e => ⟨4, some e, h, m, s, ms, 0⟩
          | .ok c => ⟨5, none, h, m, s, ms, c⟩

/-- Method `Port.GetTime` (lines 389-414). -/
def GetTime (port : Port) : Port × Except Err TimeInfo :=
  match WriteLine port (ascii "RDCK") with
  | (port1, _, some e) => (port1, .error e)
  | (port1, _, none) =>
    match ReadLine port1 (List.replicate 32 0) with
    | (port2, _, _, some e) => (port2, .error e)
    | (port2, dst, n, none) =>
      let r := SscanfTime (dst.take n)
      match (if r.n = 5 then r.err else none) with
      | some e => (port2, .error e)
      | none =>
        match CheckResult port2 with
        | (port3, some e) => (port3, .error e)
        | (port3, none) => (port3, .ok ⟨r.h, r.m, r.s, r.ms, decide (r.c = 89)⟩)

/-! ## Helpers for stating properties -/

/-- The connection with its pending input replaced by `rx`. -/
def withRx (port : Port) (rx : List RxEvent) : Port :=
  { port with Port := { port.Port with rx := rx } }

/-- The bytes `l` as successful one-byte reads. -/
def rxBytes (l : List Nat) : List RxEvent := l.map RxEvent.byte

/-- A line terminator on the wire: NUL, or carriage return and the byte read
after it. -/
def IsTerminator (t : List RxEvent) : Prop :=
  t = [RxEvent.byte 0] ∨ ∃ x, t = [RxEvent.byte 13, RxEvent.byte x]

/-- A connection on which `rx` is about to arrive, nothing was written yet and
no write or flush is scheduled to fail. -/
def freshPort (rx : List Nat) (textMode : Bool) : Port :=
  { Port := { rx := rxBytes rx, tx := [], txFail := [], flushes := 0, flushFail := [] },
    Config := { Id := 0, Name := "/dev/ttyUSB0", Baud := 19200, TextMode := textMode } }

/-- The two characters that the encoding loop stores for the byte `b`:
`data3[0]` and `data3[1]` of `data3 = fmt.Sprintf("%02x", b)`. -/
def hexPair (b : Nat) : List Nat :=
  [(SprintfHex 2 (b : Int)).getD 0 0, (SprintfHex 2 (b : Int)).getD 1 0]

/-- The encoded payload: the payload itself in text mode, two hexadecimal
characters per byte in binary mode. -/
def encodePayload (textMode : Bool) (data : List Nat) : List Nat :=
  if textMode then data else data.flatMap hexPair

/-- The command that `SendTo` builds for one payload of at most 32 bytes. -/
def txduCommand (textMode : Bool) (addr : Int) (data : List Nat) : List Nat :=
  ascii "TXDU " ++ SprintfHex 4 addr ++ encodePayload textMode data

/-- The bytes that `WriteLine` hands to the transport for the line `bs`. -/
def lineBytes (bs : List Nat) : List Nat :=
  if bs.length > 30 then bs.take 30 ++ ascii "\r\n" else bs

/-- The response made of `k` lines `"OK"`, each ended by carriage return and
newline. -/
def okLines (k : Nat) : List Nat := (List.replicate k (ascii "OK\r\n")).flatten

/-- The chunks that the loop of lines 232-240 cuts from index `i` on. -/
def chunksFrom : Nat → List Nat → Nat → List (List Nat)
  | 0, data, i => [data.drop i]
  | fuel + 1, data, i =>
    if i < data.length - 8 then slice data i (i + 8) :: chunksFrom fuel data (i + 8)
    else [data.drop i]

/-- The connection after the lines `lines` were written, each followed by a
flush, and the input was consumed down to `tail`. -/
def afterSend (port : Port) (lines : List (List Nat)) (tail : List RxEvent) : Port :=
  { port with Port :=
      { port.Port with rx := tail, tx := port.Port.tx ++ lines,
                       flushes := port.Port.flushes + lines.length } }

/-- A keyed line of the parameter response: the bytes before its first colon,
the bytes after it, and the terminator that follows the line on the wire. -/
structure ParamLine where
  key : List Nat
  val : List Nat
  term : List RxEvent

/-- The bytes of a keyed line. -/
def ParamLine.bytes (pl : ParamLine) : List Nat := pl.key ++ 58 :: pl.val

/-- A keyed line as it arrives: its bytes and its terminator. -/
def ParamLine.rx (pl : ParamLine) : List RxEvent := rxBytes pl.bytes ++ pl.term

/-- The colon that splits the line is its first one, the line holds no
terminator byte and fits the 64-byte line buffer of `ReadParams`, and a
terminator follows it. -/
def ParamLine.WellFormed (pl : ParamLine) : Prop :=
  58 ∉ pl.key ∧ (∀ b ∈ pl.bytes, b ≠ 0 ∧ b ≠ 13) ∧ pl.bytes.length < 64 ∧ IsTerminator pl.term

/-- The map after the keyed lines were stored in order. -/
def storeLines (params : Params) (ls : List ParamLine) : Params :=
  ls.foldl (fun m pl => m.set pl.key pl.val) params

/-- The four lowercase hexadecimal digits of a value below 65536. -/
def hex4 (a : Nat) : List Nat :=
  [hexChar (a / 4096), hexChar (a / 256 % 16), hexChar (a / 16 % 16), hexChar (a % 16)]

/-- The two lowercase hexadecimal digits of a byte: high nibble, low nibble. -/
def hexByte (b : Nat) : List Nat := [hexChar (b / 16), hexChar (b % 16)]

/-- The TXDU command as the specification words it: `"TXDU "`, the address as
four zero-padded lowercase hexadecimal digits, and the payload, unmodified in
text mode and as two hexadecimal digits per byte in binary mode. -/
def txduSpec (textMode : Bool) (a : Nat) (data : List Nat) : List Nat :=
  ascii "TXDU " ++ hex4 a ++ (if textMode then data else data.flatMap hexByte)

/-- A connection like `freshPort` whose next write is scheduled to fail with
the transport error `e`. -/
def failingWritePort (rx : List Nat) (textMode : Bool) (e : Err) : Port :=
  { Port := { rx := rxBytes rx, tx := [], txFail := [some e], flushes := 0, flushFail := [] },
    Config := { Id := 0, Name := "/dev/ttyUSB0", Baud := 19200, TextMode := textMode } }

/-- The direct sends of the chunks `cs` one after the other, stopping at the
first that does not succeed. -/
def sendSeq (addr : Int) : Port → List (List Nat) → Port × Res Unit
  | port, [] => (port, .ok ())
  | port, c :: cs =>
    match SendToDirect port addr c with
    | (port1, .ok _) => sendSeq addr port1 cs
    | r => r

/-- The connection after the lines `lines` were written, `k` flushes were
made, the input was consumed down to `tail` and the schedule of write outcomes
down to `txFail`. -/
def afterSendBy (port : Port) (lines : List (List Nat)) (tail : List RxEvent)
    (txFail : List (Option Err)) (k : Nat) : Port :=
  { port with Port :=
      { port.Port with rx := tail, tx := port.Port.tx ++ lines, txFail := txFail,
                       flushes := port.Port.flushes + k } }

/-- A connection like `freshPort` with the schedule `txFail` of write
outcomes. -/
def scriptedPort (rx : List Nat) (textMode : Bool) (txFail : List (Option Err)) : Port :=
  { Port := { rx := rxBytes rx, tx := [], txFail := txFail, flushes := 0, flushFail := [] },
    Config := { Id := 0, Name := "/dev/ttyUSB0", Baud := 19200, TextMode := textMode } }

/-- Between the connection states `p` and `q` writes were only added to the
log, and each added write has at most 32 bytes. -/
def WritesCapped (p q : Port) : Prop :=
  ∃ added : List (List Nat), q.Port.tx = p.Port.tx ++ added ∧ ∀ w ∈ added, w.length ≤ 32

/-- The bytes that `Broadcast` writes for one payload of at most 32 bytes in
text mode: the keyword, the payload and the terminator, cut at 32 bytes by
`Write`. -/
def broadcastBytes (c : List Nat) : List Nat :=
  if ((if c.length ≤ 8 then ascii "TXDA " else ascii "TXDT ") ++ c ++ ascii "\r\n").length > 32
  then (((if c.length ≤ 8 then ascii "TXDA " else ascii "TXDT ") ++ c ++ ascii "\r\n").take 32)
  else (if c.length ≤ 8 then ascii "TXDA " else ascii "TXDT ") ++ c ++ ascii "\r\n"

/-! ## Lemmas on the line framer -/

theorem Serial.Read_byte (s : Serial) (b : Nat) (tail : List RxEvent)
    (h : s.rx = RxEvent.byte b :: tail) :
    s.Read = ({ s with rx := tail }, .ok b) := by
  simp [Serial.Read, h]

/-- Reading the terminator-free bytes `l` into the buffer `pre ++ old` from
index `len(pre)` stores them and continues the loop after them. -/
theorem ReadLineLoop_run (l : List Nat) (hl : ∀ b ∈ l, b ≠ 0 ∧ b ≠ 13) :
    ∀ (fuel : Nat) (pre old : List Nat) (s : Serial) (tail : List RxEvent),
      l.length ≤ old.length → s.rx = rxBytes l ++ tail →
      ReadLineLoop (fuel + l.length) pre.length (pre ++ old) s
        = ReadLineLoop fuel (pre.length + l.length) (pre ++ l ++ old.drop l.length)
            { s with rx := tail } := by
  induction l with
  | nil =>
    intro fuel pre old s tail _ hs
    simp only [rxBytes, List.map_nil, List.nil_append] at hs
    have : ({ s with rx := tail } : Serial) = s := by cases s; simp_all
    simp [this]
  | cons b l ih =>
    intro fuel pre old s tail hlen hs
    have hb := hl b (List.mem_cons_self _ _)
    have hl2 : ∀ c ∈ l, c ≠ 0 ∧ c ≠ 13 := fun c hc => hl c (List.mem_cons_of_mem _ hc)
    cases old with
    | nil => simp at hlen
    | cons o old2 =>
      have hs2 : s.rx = RxEvent.byte b :: (rxBytes l ++ tail) := by
        simpa [rxBytes] using hs
      have hfuel : fuel + (b :: l).length = (fuel + l.length) + 1 := by
        simp [Nat.add_assoc]
      rw [hfuel, ReadLineLoop, Serial.Read_byte s b _ hs2]
      simp only [hb.1, hb.2, if_false]
      have hset : (pre ++ o :: old2).set pre.length b = (pre ++ [b]) ++ old2 := by
        simp
      rw [hset]
      have hlen2 : l.length ≤ old2.length := by simpa using hlen
      have := ih hl2 fuel (pre ++ [b]) old2 { s with rx := rxBytes l ++ tail } tail hlen2 rfl
      simp only [List.length_append, List.length_singleton] at this
      rw [this]
      simp [Nat.add_assoc, Nat.add_comm 1]

theorem ReadLineLoop_start (l : List Nat) (hl : ∀ b ∈ l, b ≠ 0 ∧ b ≠ 13)
    (fuel : Nat) (bs : List Nat) (s : Serial) (tail : List RxEvent)
    (hlen : l.length ≤ bs.length) (hs : s.rx = rxBytes l ++ tail) :
    ReadLineLoop (fuel + l.length) 0 bs s
      = ReadLineLoop fuel l.length (l ++ bs.drop l.length) { s with rx := tail } := by
  have := ReadLineLoop_run l hl fuel [] bs s tail hlen hs
  simpa using this

/-- A line of fewer than `len(bs)` bytes ended by NUL. -/
theorem ReadLine_nul (port : Port) (bs l : List Nat) (tail : List RxEvent)
    (hl : ∀ b ∈ l, b ≠ 0 ∧ b ≠ 13) (hk : l.length < bs.length) :
    ReadLine (withRx port (rxBytes l ++ RxEvent.byte 0 :: tail)) bs
      = (withRx port tail, l ++ bs.drop l.length, l.length, none) := by
  obtain ⟨f, hf⟩ : ∃ f, bs.length = (f + 1) + l.length := ⟨bs.length - l.length - 1, by omega⟩
  simp only [ReadLine, hf]
  rw [ReadLineLoop_start l hl (f + 1) bs _ (RxEvent.byte 0 :: tail) (by omega) (by simp [withRx])]
  simp [ReadLineLoop, Serial.Read, withRx]

/-- A line of fewer than `len(bs)` bytes ended by carriage return; the byte
after the carriage return is read and dropped. -/
theorem ReadLine_cr (port : Port) (bs l : List Nat) (x : Nat) (tail : List RxEvent)
    (hl : ∀ b ∈ l, b ≠ 0 ∧ b ≠ 13) (hk : l.length < bs.length) :
    ReadLine (withRx port (rxBytes l ++ RxEvent.byte 13 :: RxEvent.byte x :: tail)) bs
      = (withRx port tail, l ++ bs.drop l.length, l.length, none) := by
  obtain ⟨f, hf⟩ : ∃ f, bs.length = (f + 1) + l.length := ⟨bs.length - l.length - 1, by omega⟩
  simp only [ReadLine, hf]
  rw [ReadLineLoop_start l hl (f + 1) bs _ (RxEvent.byte 13 :: RxEvent.byte x :: tail)
    (by omega) (by simp [withRx])]
  simp [ReadLineLoop, Serial.Read, withRx]

/-- No terminator among the first `len(bs)` bytes: the buffer is filled. -/
theorem ReadLine_full (port : Port) (bs l : List Nat) (tail : List RxEvent)
    (hl : ∀ b ∈ l, b ≠ 0 ∧ b ≠ 13) (hk : l.length = bs.length) :
    ReadLine (withRx port (rxBytes l ++ tail)) bs
      = (withRx port tail, l, bs.length, none) := by
  simp only [ReadLine]
  have h0 : bs.length = 0 + l.length := by omega
  rw [h0, ReadLineLoop_start l hl 0 bs _ tail (by omega) (by simp [withRx])]
  simp [ReadLineLoop, withRx, hk]

theorem Flush_rx (port : Port) : (Flush port).1.Port.rx = port.Port.rx := by
  unfold Flush Serial.Flush
  split <;> rfl

theorem withRx_self (port : Port) (rx : List RxEvent) (h : port.Port.rx = rx) :
    withRx port rx = port := by
  cases port with
  | mk s c => cases s; simp_all [withRx]

theorem ReadLine_term (port : Port) (bs l : List Nat) (term tail : List RxEvent)
    (hl : ∀ b ∈ l, b ≠ 0 ∧ b ≠ 13) (hk : l.length < bs.length) (hterm : IsTerminator term) :
    ReadLine (withRx port (rxBytes l ++ term ++ tail)) bs
      = (withRx port tail, l ++ bs.drop l.length, l.length, none) := by
  rcases hterm with h | ⟨x, h⟩
  · subst h
    simpa using ReadLine_nul port bs l tail hl hk
  · subst h
    simpa using ReadLine_cr port bs l x tail hl hk

theorem ReadStringLine_term (port : Port) (l : List Nat) (term tail : List RxEvent)
    (hl : ∀ b ∈ l, b ≠ 0 ∧ b ≠ 13) (hk : l.length < 32) (hterm : IsTerminator term) :
    ReadStringLine (withRx port (rxBytes l ++ term ++ tail)) = (withRx port tail, .ok l) := by
  have h := ReadLine_term port (List.replicate 32 0) l term tail hl (by simpa using hk) hterm
  simp only [ReadStringLine, h]
  simp

theorem CheckResult_line (port : Port) (l : List Nat) (term tail : List RxEvent)
    (hflush : (Flush port).2 = none)
    (hl : ∀ b ∈ l, b ≠ 0 ∧ b ≠ 13) (hk : l.length < 32) (hterm : IsTerminator term)
    (hrx : port.Port.rx = rxBytes l ++ term ++ tail) :
    CheckResult port
      = (withRx (Flush port).1 tail, if l = ascii "OK" then none else some .unknownBehaviour) := by
  unfold CheckResult
  have h1 : Flush port = ((Flush port).1, none) := by rw [← hflush]
  rw [h1]
  simp only
  have h2 : (Flush port).1 = withRx (Flush port).1 (rxBytes l ++ term ++ tail) :=
    (withRx_self _ _ (by rw [Flush_rx, hrx])).symm
  rw [h2, ReadStringLine_term _ l term tail hl hk hterm]
  by_cases h : l = ascii "OK" <;> simp [h, withRx]

/-! ## Lemmas on writes and result checks -/

theorem Serial.Write_tx (s : Serial) (bs : List Nat) : (s.Write bs).1.tx = s.tx ++ [bs] := by
  unfold Serial.Write
  split <;> rfl

theorem Serial.Write_rx (s : Serial) (bs : List Nat) : (s.Write bs).1.rx = s.rx := by
  unfold Serial.Write
  split <;> rfl

theorem WriteLine_Config (port : Port) (bs : List Nat) :
    (WriteLine port bs).1.Config = port.Config := rfl

theorem ReadLineLoop_tx (fuel : Nat) : ∀ (i : Nat) (bs : List Nat) (s : Serial),
    (ReadLineLoop fuel i bs s).1.tx = s.tx := by
  induction fuel with
  | zero => intro i bs s; rfl
  | succ n ih =>
    intro i bs s
    unfold ReadLineLoop Serial.Read
    rcases hrx : s.rx with _ | ⟨ev, rest⟩
    · simp
    · cases ev with
      | fail e => simp
      | byte b =>
        simp only
        by_cases h0 : b = 0
        · simp [h0]
        · by_cases h13 : b = 13
          · simp only [h13]
            rcases rest with _ | ⟨ev2, rest2⟩
            · simp
            · cases ev2 <;> simp
          · simp only [h0, h13, if_false]
            rw [ih]

theorem ReadStringLine_fst (port : Port) :
    (ReadStringLine port).1 = (ReadLine port (List.replicate 32 0)).1 := by
  unfold ReadStringLine
  simp only
  split
  · next h => rw [h]
  · next h => rw [h]

theorem CheckResult_fst (port : Port) :
    (CheckResult port).1 = (Flush port).1 ∨
      (CheckResult port).1 = (ReadLine (Flush port).1 (List.replicate 32 0)).1 := by
  unfold CheckResult
  rcases hf : Flush port with ⟨p1, _ | e⟩
  · simp only
    rcases hr : ReadStringLine p1 with ⟨p2, e | s⟩
    · right
      have : p2 = (ReadStringLine p1).1 := by rw [hr]
      simp [this, ReadStringLine_fst]
    · right
      have : p2 = (ReadStringLine p1).1 := by rw [hr]
      simp only
      split <;> simp [this, ReadStringLine_fst]
  · left; rfl

theorem CheckResult_Config (port : Port) : (CheckResult port).1.Config = port.Config := by
  rcases CheckResult_fst port with h | h <;> rw [h] <;> rfl

theorem CheckResult_tx (port : Port) : (CheckResult port).1.Port.tx = port.Port.tx := by
  have hfl : (Flush port).1.Port.tx = port.Port.tx := by
    unfold Flush Serial.Flush
    split <;> rfl
  rcases CheckResult_fst port with h | h
  · rw [h, hfl]
  · rw [h, ← hfl]
    simp only [ReadLine]
    exact ReadLineLoop_tx _ _ _ _

/-- The result check on input whose first 32 bytes hold no terminator: the 32
bytes are taken as the line and the rest is left unread. -/
theorem CheckResult_full (port : Port) (l : List Nat) (tail : List RxEvent)
    (hflush : (Flush port).2 = none)
    (hl : ∀ b ∈ l, b ≠ 0 ∧ b ≠ 13) (hk : l.length = 32)
    (hrx : port.Port.rx = rxBytes l ++ tail) :
    CheckResult port = (withRx (Flush port).1 tail, some Err.unknownBehaviour) := by
  unfold CheckResult
  have h1 : Flush port = ((Flush port).1, none) := by rw [← hflush]
  rw [h1]
  simp only
  have h2 : (Flush port).1 = withRx (Flush port).1 (rxBytes l ++ tail) :=
    (withRx_self _ _ (by rw [Flush_rx, hrx])).symm
  have hr := ReadLine_full (Flush port).1 (List.replicate 32 0) l tail hl (by simpa using hk)
  rw [← h2] at hr
  have hne : l ≠ ascii "OK" := by
    intro hc
    rw [hc] at hk
    revert hk
    decide
  have htake : List.take (List.replicate 32 0).length l = l := by
    rw [List.length_replicate, ← hk]
    exact List.take_length l
  simp only [ReadStringLine, hr, htake]
  simp [hne, withRx]

/-! ## Lemmas on the payload codec -/

theorem setIdx_length (s : List Nat) (i v : Nat) (d : List Nat) (h : setIdx s i v = .ok d) :
    d.length = s.length := by
  unfold setIdx at h
  split at h
  · cases h; simp
  · cases h

/-- The encoding loop panics when the destination is shorter than twice the
number of payload bytes. -/
theorem hexEncodeLoop_short_panics (data : List Nat) :
    ∀ (i : Nat) (data2 : List Nat), data ≠ [] → data2.length < 2 * (i + data.length) →
      hexEncodeLoop data i data2 = .panic := by
  induction data with
  | nil => intro i data2 h; exact absurd rfl h
  | cons b rest ih =>
    intro i data2 _ hlen
    unfold hexEncodeLoop
    simp only
    rcases h1 : setIdx data2 (i * 2) ((SprintfHex 2 (b : Int)).getD 0 0) with d | e | _
    · have hd := setIdx_length _ _ _ _ h1
      have hi : i * 2 < data2.length := by
        unfold setIdx at h1
        split at h1
        · assumption
        · cases h1
      simp only
      rcases h2 : setIdx d (i * 2 + 1) ((SprintfHex 2 (b : Int)).getD 1 0) with d2 | e | _
      · have hd2 := setIdx_length _ _ _ _ h2
        have hi2 : i * 2 + 1 < d.length := by
          unfold setIdx at h2
          split at h2
          · assumption
          · cases h2
        simp only
        apply ih
        · intro hnil
          subst hnil
          simp at hlen
          omega
        · simp at hlen
          omega
      · unfold setIdx at h2
        split at h2 <;> cases h2
      · rfl
    · unfold setIdx at h1
      split at h1 <;> cases h1
    · rfl

/-! ## Lemmas on the transmitter -/

theorem hexEncodeLoop_ok (data : List Nat) :
    ∀ (i : Nat) (pre : List Nat), pre.length = i * 2 →
      hexEncodeLoop data i (pre ++ List.replicate (data.length * 2) 0)
        = .ok (pre ++ data.flatMap hexPair) := by
  induction data with
  | nil => intro i pre _; simp [hexEncodeLoop]
  | cons b rest ih =>
    intro i pre hpre
    have hrep : List.replicate ((b :: rest).length * 2) 0
        = 0 :: 0 :: List.replicate (rest.length * 2) 0 := by
      simp [List.length_cons, Nat.add_mul, List.replicate_succ]
    rw [hrep]
    unfold hexEncodeLoop
    simp only
    have h1 : setIdx (pre ++ 0 :: 0 :: List.replicate (rest.length * 2) 0) (i * 2)
        ((SprintfHex 2 (b : Int)).getD 0 0)
        = .ok (pre ++ (SprintfHex 2 (b : Int)).getD 0 0 :: 0 ::
            List.replicate (rest.length * 2) 0) := by
      unfold setIdx
      rw [← hpre]
      simp
    rw [h1]
    simp only
    have h2 : setIdx (pre ++ (SprintfHex 2 (b : Int)).getD 0 0 :: 0 ::
          List.replicate (rest.length * 2) 0) (i * 2 + 1)
        ((SprintfHex 2 (b : Int)).getD 1 0)
        = .ok ((pre ++ hexPair b) ++ List.replicate (rest.length * 2) 0) := by
      unfold setIdx
      rw [← hpre]
      simp [hexPair]
    rw [h2]
    simp only
    rw [ih (i + 1) (pre ++ hexPair b) (by simp [hexPair, hpre, Nat.add_mul])]
    simp

theorem encode_eq (textMode : Bool) (data : List Nat) :
    (if textMode then Res.ok data
      else hexEncodeLoop data 0 (List.replicate (data.length * 2) 0))
      = .ok (encodePayload textMode data) := by
  cases textMode
  · have := hexEncodeLoop_ok data 0 [] rfl
    simpa [encodePayload] using this
  · simp [encodePayload]

/-- A payload of at most 32 bytes takes the first branch of `SendTo`. -/
theorem SendTo_of_le (port : Port) (addr : Int) (data : List Nat) (h : data.length ≤ 32) :
    SendTo port addr data = SendToDirect port addr data := by
  simp [SendTo, h]

/-- The recursive call of the loop of `SendTo` on `data[i:i+8]` runs the first
branch. -/
theorem SendTo_slice (port : Port) (addr : Int) (data : List Nat) (i : Nat) :
    SendTo port addr (slice data i (i + 8)) = SendToDirect port addr (slice data i (i + 8)) := by
  apply SendTo_of_le
  simp only [slice, List.length_drop, List.length_take]
  omega

/-- The recursive call of `SendTo` on `data[i:]` after the loop runs the first
branch. -/
theorem SendTo_rest (port : Port) (addr : Int) (data : List Nat) (i : Nat)
    (h : ¬ i < data.length - 8) :
    SendTo port addr (data.drop i) = SendToDirect port addr (data.drop i) := by
  apply SendTo_of_le
  simp only [List.length_drop]
  omega

/-- A payload of at most 32 bytes takes the first branch of `Broadcast`. -/
theorem Broadcast_of_le (port : Port) (data : List Nat) (h : data.length ≤ 32) :
    Broadcast port data = BroadcastDirect port data := by
  simp [Broadcast, h]

/-- The recursive call of the loop of `Broadcast` on `data[i:i+8]` runs the
first branch. -/
theorem Broadcast_slice (port : Port) (data : List Nat) (i : Nat) :
    Broadcast port (slice data i (i + 8)) = BroadcastDirect port (slice data i (i + 8)) := by
  apply Broadcast_of_le
  simp only [slice, List.length_drop, List.length_take]
  omega

/-- The recursive call of `Broadcast` on `data[i:]` after the loop runs the
first branch. -/
theorem Broadcast_rest (port : Port) (data : List Nat) (i : Nat)
    (h : ¬ i < data.length - 8) :
    Broadcast port (data.drop i) = BroadcastDirect port (data.drop i) := by
  apply Broadcast_of_le
  simp only [List.length_drop]
  omega

theorem afterSend_afterSend (port : Port) (l1 l2 : List (List Nat)) (t1 t2 : List RxEvent) :
    afterSend (afterSend port l1 t1) l2 t2 = afterSend port (l1 ++ l2) t2 := by
  simp [afterSend, Nat.add_assoc]

theorem rxBytes_append (a b : List Nat) : rxBytes (a ++ b) = rxBytes a ++ rxBytes b := by
  simp [rxBytes]

theorem okLines_succ (k : Nat) : okLines (k + 1) = ascii "OK\r\n" ++ okLines k := by
  simp [okLines, List.replicate_succ]

/-- One direct send that is answered by `"OK"`. -/
theorem SendToDirect_ok (port : Port) (addr : Int) (c : List Nat) (tail : List RxEvent)
    (htx : port.Port.txFail = []) (hfl : port.Port.flushFail = [])
    (hrx : port.Port.rx = rxBytes (ascii "OK\r\n") ++ tail) :
    SendToDirect port addr c
      = (afterSend port [lineBytes (txduCommand port.Config.TextMode addr c)] tail, .ok ()) := by
  unfold SendToDirect
  simp only [encode_eq]
  have hw : WriteLine port (ascii "TXDU " ++ SprintfHex 4 addr
        ++ encodePayload port.Config.TextMode c)
      = ({ port with Port := { port.Port with
            tx := port.Port.tx ++ [lineBytes (txduCommand port.Config.TextMode addr c)] } },
          (lineBytes (txduCommand port.Config.TextMode addr c)).length, none) := by
    simp [WriteLine, Serial.Write, htx, lineBytes, txduCommand]
  rw [hw]
  simp only
  have hc := CheckResult_line
    { port with Port := { port.Port with
        tx := port.Port.tx ++ [lineBytes (txduCommand port.Config.TextMode addr c)] } }
    (ascii "OK") [RxEvent.byte 13, RxEvent.byte 10] tail
    (by simp [Flush, Serial.Flush, hfl]) (by decide) (by decide) (Or.inr ⟨10, rfl⟩)
    (by simp [hrx]; rfl)
  rw [hc]
  simp [Res.ofError, afterSend, withRx, Flush, Serial.Flush, hfl]

theorem afterSend_txFail (port : Port) (l : List (List Nat)) (t : List RxEvent) :
    (afterSend port l t).Port.txFail = port.Port.txFail := rfl

theorem afterSend_flushFail (port : Port) (l : List (List Nat)) (t : List RxEvent) :
    (afterSend port l t).Port.flushFail = port.Port.flushFail := rfl

/-- The chunked send when every response is `"OK"`. -/
theorem SendToChunks_ok (addr : Int) (data : List Nat) (fuel : Nat) :
    ∀ (port : Port) (i : Nat) (tail : List RxEvent),
      port.Port.txFail = [] → port.Port.flushFail = [] →
      port.Port.rx = rxBytes (okLines (chunksFrom fuel data i).length) ++ tail →
      SendToChunks fuel port addr data i
        = (afterSend port
            ((chunksFrom fuel data i).map
              (fun c => lineBytes (txduCommand port.Config.TextMode addr c))) tail,
           .ok ()) := by
  induction fuel with
  | zero =>
    intro port i tail htx hfl hrx
    simp only [chunksFrom, List.length_singleton, okLines_succ, rxBytes_append] at hrx
    have hrx2 : port.Port.rx = rxBytes (ascii "OK\r\n") ++ tail := by
      simpa [okLines, rxBytes] using hrx
    simp only [SendToChunks, chunksFrom, List.map_cons, List.map_nil]
    exact SendToDirect_ok port addr _ tail htx hfl hrx2
  | succ n ih =>
    intro port i tail htx hfl hrx
    unfold SendToChunks
    unfold chunksFrom at hrx ⊢
    by_cases hc : i < data.length - 8
    · simp only [hc, if_true, List.length_cons, okLines_succ, rxBytes_append,
        List.append_assoc] at hrx
      simp only [hc, if_true, List.map_cons]
      rw [SendToDirect_ok port addr _ _ htx hfl hrx]
      simp only
      rw [ih _ (i + 8) tail (by rw [afterSend_txFail, htx]) (by rw [afterSend_flushFail, hfl])
        (by simp [afterSend])]
      rw [afterSend_afterSend]
      simp [afterSend]
    · simp only [hc, if_false, List.length_singleton, okLines_succ, rxBytes_append] at hrx
      have hrx2 : port.Port.rx = rxBytes (ascii "OK\r\n") ++ tail := by
        simpa [okLines, rxBytes] using hrx
      simp only [hc, if_false, List.map_cons, List.map_nil]
      exact SendToDirect_ok port addr _ tail htx hfl hrx2

theorem slice_append_drop (data : List Nat) (i k : Nat) :
    slice data i (i + k) ++ data.drop (i + k) = data.drop i := by
  unfold slice
  rw [List.drop_take]
  simp only [Nat.add_sub_cancel_left]
  conv_rhs => rw [← List.take_append_drop k (data.drop i)]
  rw [List.drop_drop]

theorem slice_length (data : List Nat) (i k : Nat) (h : i + k ≤ data.length) :
    (slice data i (i + k)).length = k := by
  simp [slice]
  omega

/-- The chunks cut by the loop: they concatenate to the payload from `i` on,
each has at most 8 bytes, all but the last have exactly 8, and there are
`ceil((len(data) - i) / 8)` of them. -/
theorem chunksFrom_spec (data : List Nat) (fuel : Nat) :
    ∀ i, i < data.length → data.length - i ≤ 8 * (fuel + 1) →
      (chunksFrom fuel data i).flatten = data.drop i ∧
      (∀ c ∈ chunksFrom fuel data i, c.length ≤ 8) ∧
      (chunksFrom fuel data i).length = (data.length - i + 7) / 8 := by
  induction fuel with
  | zero =>
    intro i hi hf
    simp only [chunksFrom]
    refine ⟨by simp, ?_, ?_⟩
    · intro c hc
      simp only [List.mem_singleton] at hc
      subst hc
      simp
      omega
    · simp
      omega
  | succ n ih =>
    intro i hi hf
    unfold chunksFrom
    by_cases hc : i < data.length - 8
    · simp only [hc, if_true]
      obtain ⟨h1, h2, h3⟩ := ih (i + 8) (by omega) (by omega)
      refine ⟨?_, ?_, ?_⟩
      · simp only [List.flatten_cons, h1]
        exact slice_append_drop data i 8
      · intro c hcm
        rcases List.mem_cons.mp hcm with h | h
        · subst h
          rw [slice_length data i 8 (by omega)]
        · exact h2 c h
      · simp only [List.length_cons, h3]
        omega
    · simp only [hc, if_false]
      refine ⟨by simp, ?_, ?_⟩
      · intro c hcm
        simp only [List.mem_singleton] at hcm
        subst hcm
        simp
        omega
      · simp
        omega

theorem hexDigitsAux_length (fuel : Nat) :
    ∀ (n k : Nat) (acc : List Nat), n < 16 ^ (k + 1) →
      (hexDigitsAux fuel n acc).length ≤ k + 1 + acc.length := by
  induction fuel with
  | zero => intro n k acc _; simp [hexDigitsAux]
  | succ f ih =>
    intro n k acc hn
    unfold hexDigitsAux
    by_cases h16 : n < 16
    · simp [h16]; omega
    · simp only [h16, if_false]
      cases k with
      | zero => simp at hn; omega
      | succ k2 =>
        have hdiv : n / 16 < 16 ^ (k2 + 1) := by
          rw [Nat.div_lt_iff_lt_mul (by norm_num)]
          calc n < 16 ^ (k2 + 1 + 1) := hn
            _ = 16 ^ (k2 + 1) * 16 := by rw [pow_succ]
        have := ih (n / 16) k2 (hexChar (n % 16) :: acc) hdiv
        simp only [List.length_cons] at this
        omega

/-- A valid address is rendered as exactly 4 characters. -/
theorem SprintfHex_addr_length (addr : Int) (h0 : 0 ≤ addr) (h1 : addr ≤ 65535) :
    (SprintfHex 4 addr).length = 4 := by
  have hneg : ¬ addr < 0 := by omega
  have hn : addr.natAbs < 16 ^ (3 + 1) := by norm_num; omega
  have := hexDigitsAux_length (addr.natAbs + 1) addr.natAbs 3 [] hn
  simp only [List.length_nil] at this
  simp only [SprintfHex, hneg, if_false, zeroPad, hexDigits, List.length_append,
    List.length_replicate]
  omega

theorem hexPair_length (b : Nat) : (hexPair b).length = 2 := rfl

theorem encodePayload_length_le (textMode : Bool) (c : List Nat) :
    (encodePayload textMode c).length ≤ 2 * c.length := by
  cases textMode
  · simp only [encodePayload, Bool.false_eq_true, if_false]
    induction c with
    | nil => simp
    | cons b rest ih =>
      simp only [List.flatMap_cons, List.length_append, hexPair_length, List.length_cons]
      omega
  · simp [encodePayload]; omega

/-- With a valid address and a chunk of at most 8 bytes the command fits the
30-byte cap of `WriteLine` and is written whole. -/
theorem lineBytes_txduCommand (textMode : Bool) (addr : Int) (c : List Nat)
    (h0 : 0 ≤ addr) (h1 : addr ≤ 65535) (hc : c.length ≤ 8) :
    lineBytes (txduCommand textMode addr c) = txduCommand textMode addr c := by
  have ha := SprintfHex_addr_length addr h0 h1
  have he := encodePayload_length_le textMode c
  have h5 : (ascii "TXDU ").length = 5 := by decide
  have : ¬ (txduCommand textMode addr c).length > 30 := by
    simp only [txduCommand, List.length_append, ha, h5]
    omega
  simp [lineBytes, this]

/-! ## Lemmas on the parameter store -/

theorem Index_colon_none (T : List Nat) (h : 58 ∉ T) : Index T (ascii ":") = none := by
  induction T with
  | nil => decide
  | cons b rest ih =>
    have hb : ¬ (58 = b) := fun hc => h (hc ▸ List.mem_cons_self _ _)
    have hr : 58 ∉ rest := fun hc => h (List.mem_cons_of_mem _ hc)
    have ha : ascii ":" = [58] := by decide
    rw [ha] at ih ⊢
    simp [Index, List.isPrefixOf, hb, ih hr]

theorem Index_colon_some (key val : List Nat) (h : 58 ∉ key) :
    Index (key ++ 58 :: val) (ascii ":") = some key.length := by
  have ha : ascii ":" = [58] := by decide
  rw [ha]
  induction key with
  | nil => simp [Index, List.isPrefixOf]
  | cons b rest ih =>
    have hb : ¬ (58 = b) := fun hc => h (hc ▸ List.mem_cons_self _ _)
    have hr : 58 ∉ rest := fun hc => h (List.mem_cons_of_mem _ hc)
    simp [Index, List.isPrefixOf, hb, ih hr]

theorem withRx_withRx (port : Port) (a b : List RxEvent) :
    withRx (withRx port a) b = withRx port b := rfl

/-- The loop of `ReadParams` on keyed lines followed by a line without colon. -/
theorem ReadParamsLoop_lines (T : List Nat) (termT tail : List RxEvent)
    (hT : 58 ∉ T) (hTt : ∀ b ∈ T, b ≠ 0 ∧ b ≠ 13) (hTlen : T.length < 64)
    (htermT : IsTerminator termT) (ls : List ParamLine) :
    ∀ (fuel : Nat) (port : Port) (params : Params),
      ls.length < fuel → (∀ pl ∈ ls, pl.WellFormed) →
      port.Port.rx = ls.flatMap ParamLine.rx ++ (rxBytes T ++ termT ++ tail) →
      ReadParamsLoop fuel port params
        = (withRx port tail, (storeLines params ls).set (ascii "_") T, none) := by
  induction ls with
  | nil =>
    intro fuel port params hf _ hrx
    obtain ⟨f, rfl⟩ : ∃ f, fuel = f + 1 := ⟨fuel - 1, by simp at hf; omega⟩
    simp only [List.flatMap_nil, List.nil_append] at hrx
    have hp : port = withRx port (rxBytes T ++ termT ++ tail) := (withRx_self _ _ hrx).symm
    have hr := ReadLine_term port (List.replicate 64 0) T termT tail hTt (by simpa using hTlen)
      htermT
    rw [← hp] at hr
    unfold ReadParamsLoop
    rw [hr]
    simp [Index_colon_none T hT, storeLines]
  | cons pl ls ih =>
    intro fuel port params hf hwf hrx
    obtain ⟨f, rfl⟩ : ∃ f, fuel = f + 1 := ⟨fuel - 1, by simp at hf; omega⟩
    obtain ⟨hk, hb, hlen, hterm⟩ := hwf pl (List.mem_cons_self _ _)
    have hrx2 : port.Port.rx
        = rxBytes pl.bytes ++ pl.term ++ (ls.flatMap ParamLine.rx ++ (rxBytes T ++ termT ++ tail)) := by
      rw [hrx]
      simp [ParamLine.rx, List.append_assoc]
    have hp : port = withRx port (rxBytes pl.bytes ++ pl.term
        ++ (ls.flatMap ParamLine.rx ++ (rxBytes T ++ termT ++ tail))) :=
      (withRx_self _ _ hrx2).symm
    have hr := ReadLine_term port (List.replicate 64 0) pl.bytes pl.term
      (ls.flatMap ParamLine.rx ++ (rxBytes T ++ termT ++ tail)) hb (by simpa using hlen) hterm
    rw [← hp] at hr
    unfold ReadParamsLoop
    rw [hr]
    simp only [List.take_left']
    have hidx : Index pl.bytes (ascii ":") = some pl.key.length :=
      Index_colon_some pl.key pl.val hk
    rw [hidx]
    simp only
    rw [ih f _ _ (by simp at hf; omega) (fun q hq => hwf q (List.mem_cons_of_mem _ hq)) rfl]
    simp [withRx_withRx, storeLines, ParamLine.bytes]

theorem Contains_iff_infix (s sub : List Nat) : Contains s sub = true ↔ sub <:+: s := by
  unfold Contains
  rw [List.any_eq_true]
  constructor
  · rintro ⟨t, ht, hp⟩
    rw [List.mem_tails] at ht
    rw [List.isPrefixOf_iff_prefix] at hp
    exact List.infix_iff_prefix_suffix.mpr ⟨t, hp, ht⟩
  · intro h
    obtain ⟨t, hp, ht⟩ := List.infix_iff_prefix_suffix.mp h
    exact ⟨t, (List.mem_tails _ _).mpr ht, List.isPrefixOf_iff_prefix.mpr hp⟩

theorem ParamLine.rx_length_pos (pl : ParamLine) (h : pl.WellFormed) : 1 ≤ pl.rx.length := by
  obtain ⟨_, _, _, ht⟩ := h
  rcases ht with ht | ⟨x, ht⟩ <;> simp [ParamLine.rx, ht]

theorem flatMap_rx_length (ls : List ParamLine) (h : ∀ pl ∈ ls, pl.WellFormed) :
    ls.length ≤ (ls.flatMap ParamLine.rx).length := by
  induction ls with
  | nil => simp
  | cons pl rest ih =>
    have h1 := ParamLine.rx_length_pos pl (h pl (List.mem_cons_self _ _))
    have h2 := ih (fun q hq => h q (List.mem_cons_of_mem _ hq))
    simp only [List.flatMap_cons, List.length_append, List.length_cons]
    omega

theorem storeLines_append (m : Params) (a b : List ParamLine) :
    storeLines m (a ++ b) = storeLines (storeLines m a) b := by
  simp [storeLines, List.foldl_append]

theorem storeLines_other (key : List Nat) (post : List ParamLine)
    (h : ∀ q ∈ post, q.key ≠ key) : ∀ m : Params, storeLines m post key = m key := by
  induction post with
  | nil => intro m; rfl
  | cons q rest ih =>
    intro m
    have hq : ¬ key = q.key := fun hc => h q (List.mem_cons_self _ _) hc.symm
    have := ih (fun r hr => h r (List.mem_cons_of_mem _ hr)) (m.set q.key q.val)
    simp only [storeLines, List.foldl_cons] at this ⊢
    rw [this]
    simp [Params.set, hq]

/-- The state and the map that `ReadParams` reaches after its loop. -/
theorem ReadParams_lines (port : Port) (params0 : Option Params) (ls : List ParamLine)
    (T : List Nat) (termT tail : List RxEvent)
    (hls : ∀ pl ∈ ls, pl.WellFormed)
    (hT : 58 ∉ T) (hTt : ∀ b ∈ T, b ≠ 0 ∧ b ≠ 13) (hTlen : T.length < 64)
    (htermT : IsTerminator termT)
    (hrx : port.Port.rx = ls.flatMap ParamLine.rx ++ (rxBytes T ++ termT ++ tail)) :
    ReadParamsLoop ((Flush (WriteLine port (ascii "RPRM")).1).1.Port.rx.length + 1)
        (Flush (WriteLine port (ascii "RPRM")).1).1 (params0.getD Params.empty)
      = (withRx (Flush (WriteLine port (ascii "RPRM")).1).1 tail,
          (storeLines (params0.getD Params.empty) ls).set (ascii "_") T, none) := by
  have hrx2 : (Flush (WriteLine port (ascii "RPRM")).1).1.Port.rx = port.Port.rx := by
    rw [Flush_rx]
    simp only [WriteLine]
    exact Serial.Write_rx _ _
  apply ReadParamsLoop_lines T termT tail hT hTt hTlen htermT ls _ _ _ _ hls
  · rw [hrx2, hrx]
  · rw [hrx2, hrx]
    have := flatMap_rx_length ls hls
    simp only [List.length_append]
    omega

theorem ReadParams_getD (port : Port) (params0 : Option Params) :
    ReadParams port params0
      = match ReadParamsLoop ((Flush (WriteLine port (ascii "RPRM")).1).1.Port.rx.length + 1)
          (Flush (WriteLine port (ascii "RPRM")).1).1 (params0.getD Params.empty) with
        | (port3, params, some e) => (port3, params, some e)
        | (port3, params, none) =>
          match Atoi (params.get (ascii "STNN")) with
          | none =>
            ({ port3 with Config :=
                { port3.Config with
                    TextMode := Contains (params.get (ascii "_")) (ascii "ECIO") } },
              params, some .atoi)
          | some id =>
            ({ port3 with Config :=
                { port3.Config with
                    TextMode := Contains (params.get (ascii "_")) (ascii "ECIO"), Id := id } },
              params, none) := by
  cases params0 <;> rfl

/-! ## Lemmas on the packet receiver -/

/-- No run of the receive loop returns a packet: on a qualifying line the call
`fmt.Sscan(string(bs[3:7]), "%x", &sender)` fails. -/
theorem ReceivePacketLoop_not_ok (fuel : Nat) :
    ∀ (port : Port) (pkt : Packet), (ReceivePacketLoop fuel port).2 ≠ .ok pkt := by
  induction fuel with
  | zero => intro port pkt h; cases h
  | succ n ih =>
    intro port pkt
    unfold ReceivePacketLoop
    rcases ReadLine port (List.replicate 32 0) with ⟨port1, bs, k, _ | e⟩
    · simp only
      by_cases hk : k ≥ 11
      · simp only [hk, if_true, SscanPercentX]
        split <;> simp
      · simp only [hk, if_false]
        exact ih port1 pkt
    · simp

theorem ReceivePacket_not_ok (port : Port) (pkt : Packet) :
    (ReceivePacket port).2 ≠ .ok pkt :=
  ReceivePacketLoop_not_ok _ port pkt

/-! ## Lemmas on hexadecimal rendering -/

theorem hexDigitsAux_fuel (g : Nat) :
    ∀ (f n : Nat) (acc : List Nat), n < 16 ^ (g + 1) → g + 1 ≤ f →
      hexDigitsAux f n acc = hexDigitsAux (g + 1) n acc := by
  induction g with
  | zero =>
    intro f n acc hn hf
    obtain ⟨k, rfl⟩ : ∃ k, f = k + 1 := ⟨f - 1, by omega⟩
    have h16 : n < 16 := by simpa using hn
    simp [hexDigitsAux, h16]
  | succ g ih =>
    intro f n acc hn hf
    obtain ⟨k, rfl⟩ : ∃ k, f = k + 1 := ⟨f - 1, by omega⟩
    unfold hexDigitsAux
    by_cases h16 : n < 16
    · simp [h16]
    · simp only [h16, if_false]
      apply ih
      · rw [Nat.div_lt_iff_lt_mul (by norm_num)]
        calc n < 16 ^ (g + 1 + 1) := hn
          _ = 16 ^ (g + 1) * 16 := by rw [pow_succ]
      · omega

theorem hexDigits_lt_16 (n : Nat) (h : n < 16) : hexDigits n = [hexChar n] := by
  simp [hexDigits, hexDigitsAux, h]

theorem hexDigits_lt_256 (n : Nat) (h16 : ¬ n < 16) (h : n < 256) :
    hexDigits n = [hexChar (n / 16), hexChar (n % 16)] := by
  unfold hexDigits
  rw [hexDigitsAux_fuel 1 (n + 1) n [] (by norm_num; omega) (by omega)]
  have h2 : n / 16 < 16 := by omega
  simp [hexDigitsAux, h16, h2]

theorem hexDigits_lt_4096 (n : Nat) (h256 : ¬ n < 256) (h : n < 4096) :
    hexDigits n = [hexChar (n / 16 / 16), hexChar (n / 16 % 16), hexChar (n % 16)] := by
  unfold hexDigits
  rw [hexDigitsAux_fuel 2 (n + 1) n [] (by norm_num; omega) (by omega)]
  have h1 : ¬ n < 16 := by omega
  have h2 : ¬ n / 16 < 16 := by omega
  have h3 : n / 16 / 16 < 16 := by omega
  simp [hexDigitsAux, h1, h2, h3]

theorem hexDigits_lt_65536 (n : Nat) (h4096 : ¬ n < 4096) (h : n < 65536) :
    hexDigits n = [hexChar (n / 16 / 16 / 16), hexChar (n / 16 / 16 % 16),
      hexChar (n / 16 % 16), hexChar (n % 16)] := by
  unfold hexDigits
  rw [hexDigitsAux_fuel 3 (n + 1) n [] (by norm_num; omega) (by omega)]
  have h1 : ¬ n < 16 := by omega
  have h2 : ¬ n / 16 < 16 := by omega
  have h3 : ¬ n / 16 / 16 < 16 := by omega
  have h4 : n / 16 / 16 / 16 < 16 := by omega
  simp [hexDigitsAux, h1, h2, h3, h4]

/-- A valid address is rendered as its four hexadecimal digits. -/
theorem SprintfHex_addr (addr : Int) (h0 : 0 ≤ addr) (h1 : addr ≤ 65535) :
    SprintfHex 4 addr = hex4 addr.toNat := by
  have hneg : ¬ addr < 0 := by omega
  have hnat : addr.natAbs = addr.toNat := by omega
  have hn : addr.toNat < 65536 := by omega
  simp only [SprintfHex, hneg, if_false, hnat]
  generalize addr.toNat = n at hn
  by_cases c1 : n < 16
  · rw [hexDigits_lt_16 n c1]
    have e1 : n / 4096 = 0 := by omega
    have e2 : n / 256 % 16 = 0 := by omega
    have e3 : n / 16 % 16 = 0 := by omega
    have e4 : n % 16 = n := by omega
    simp [zeroPad, hex4, e1, e2, e3, e4, hexChar, List.replicate]
  · by_cases c2 : n < 256
    · rw [hexDigits_lt_256 n c1 c2]
      have e1 : n / 4096 = 0 := by omega
      have e2 : n / 256 % 16 = 0 := by omega
      have e3 : n / 16 % 16 = n / 16 := by omega
      simp [zeroPad, hex4, e1, e2, e3, hexChar, List.replicate]
    · by_cases c3 : n < 4096
      · rw [hexDigits_lt_4096 n c2 c3]
        have e1 : n / 4096 = 0 := by omega
        have e2 : n / 256 % 16 = n / 16 / 16 := by omega
        simp [zeroPad, hex4, e1, e2, hexChar, List.replicate]
      · rw [hexDigits_lt_65536 n c3 hn]
        have e1 : n / 4096 = n / 16 / 16 / 16 := by omega
        have e2 : n / 256 % 16 = n / 16 / 16 % 16 := by omega
        simp [zeroPad, hex4, e1, e2]

/-- A byte is rendered by `%02x` as its two hexadecimal digits. -/
theorem hexPair_byte (b : Nat) (h : b < 256) : hexPair b = hexByte b := by
  have hneg : ¬ ((b : Int) < 0) := by omega
  simp only [hexPair, SprintfHex, hneg, if_false, Int.natAbs_ofNat]
  by_cases c1 : b < 16
  · rw [hexDigits_lt_16 b c1]
    have e1 : b / 16 = 0 := by omega
    have e2 : b % 16 = b := by omega
    simp [zeroPad, hexByte, e1, e2, hexChar, List.replicate]
  · rw [hexDigits_lt_256 b c1 h]
    simp [zeroPad, hexByte]

theorem flatMap_hexPair (data : List Nat) (hb : ∀ b ∈ data, b < 256) :
    data.flatMap hexPair = data.flatMap hexByte := by
  induction data with
  | nil => rfl
  | cons b rest ih =>
    simp only [List.flatMap_cons]
    rw [hexPair_byte b (hb b (List.mem_cons_self _ _)),
      ih (fun c hc => hb c (List.mem_cons_of_mem _ hc))]

/-- Positions `2i` and `2i+1` of the binary encoding hold the digits of the
high and of the low nibble of byte `i`. -/
theorem flatMap_hexByte_get (data : List Nat) :
    (data.flatMap hexByte).length = 2 * data.length ∧
    ∀ i, i < data.length →
      (data.flatMap hexByte)[2 * i]? = some (hexChar (data.getD i 0 / 16)) ∧
      (data.flatMap hexByte)[2 * i + 1]? = some (hexChar (data.getD i 0 % 16)) := by
  induction data with
  | nil => simp
  | cons b rest ih =>
    obtain ⟨hl, hi⟩ := ih
    refine ⟨by simp [List.flatMap_cons, hexByte, hl]; omega, ?_⟩
    intro i hlt
    cases i with
    | zero => simp [List.flatMap_cons, hexByte]
    | succ j =>
      have hj : j < rest.length := by simpa using hlt
      obtain ⟨h1, h2⟩ := hi j hj
      have e1 : 2 * (j + 1) = 2 * j + 1 + 1 := by omega
      have e2 : 2 * (j + 1) + 1 = 2 * j + 1 + 1 + 1 := by omega
      simp only [List.flatMap_cons, hexByte, List.cons_append, List.nil_append, e1, e2,
        List.getElem?_cons_succ, List.getD_cons_succ]
      exact ⟨h1, h2⟩

/-! ## Lemmas on failing chunked sends -/

theorem SendToChunks_eq_sendSeq (addr : Int) (data : List Nat) (fuel : Nat) :
    ∀ (port : Port) (i : Nat),
      SendToChunks fuel port addr data i = sendSeq addr port (chunksFrom fuel data i) := by
  have hlast : ∀ (port : Port) (c : List Nat),
      SendToDirect port addr c = sendSeq addr port [c] := by
    intro port c
    simp only [sendSeq]
    rcases SendToDirect port addr c with ⟨p1, u | e | _⟩ <;> rfl
  induction fuel with
  | zero => intro port i; simp only [SendToChunks, chunksFrom]; exact hlast _ _
  | succ n ih =>
    intro port i
    unfold SendToChunks chunksFrom
    by_cases hc : i < data.length - 8
    · simp only [hc, if_true, sendSeq]
      rcases SendToDirect port addr (slice data i (i + 8)) with ⟨p1, u | e | _⟩
      · exact ih p1 (i + 8)
      · rfl
      · rfl
    · simp only [hc, if_false]
      exact hlast _ _

/-- A direct send whose write fails. -/
theorem SendToDirect_write_fail (port : Port) (addr : Int) (c : List Nat) (e : Err)
    (rest : List (Option Err)) (htx : port.Port.txFail = some e :: rest) :
    SendToDirect port addr c
      = (afterSendBy port [lineBytes (txduCommand port.Config.TextMode addr c)] port.Port.rx
          rest 0, .err e) := by
  unfold SendToDirect
  simp only [encode_eq]
  have hw : WriteLine port (ascii "TXDU " ++ SprintfHex 4 addr
        ++ encodePayload port.Config.TextMode c)
      = (afterSendBy port [lineBytes (txduCommand port.Config.TextMode addr c)] port.Port.rx
          rest 0, 0, some e) := by
    simp [WriteLine, Serial.Write, htx, lineBytes, txduCommand, afterSendBy]
  rw [hw]

/-- A direct send that is answered by `"OK"`, the write being scheduled to
succeed. -/
theorem SendToDirect_ok_none (port : Port) (addr : Int) (c : List Nat) (tail : List RxEvent)
    (rest : List (Option Err))
    (htx : port.Port.txFail = none :: rest) (hfl : port.Port.flushFail = [])
    (hrx : port.Port.rx = rxBytes (ascii "OK\r\n") ++ tail) :
    SendToDirect port addr c
      = (afterSendBy port [lineBytes (txduCommand port.Config.TextMode addr c)] tail rest 1,
          .ok ()) := by
  unfold SendToDirect
  simp only [encode_eq]
  have hw : WriteLine port (ascii "TXDU " ++ SprintfHex 4 addr
        ++ encodePayload port.Config.TextMode c)
      = ({ port with Port := { port.Port with
            tx := port.Port.tx ++ [lineBytes (txduCommand port.Config.TextMode addr c)],
            txFail := rest } },
          (lineBytes (txduCommand port.Config.TextMode addr c)).length, none) := by
    simp [WriteLine, Serial.Write, htx, lineBytes, txduCommand]
  rw [hw]
  simp only
  have hc := CheckResult_line
    { port with Port := { port.Port with
        tx := port.Port.tx ++ [lineBytes (txduCommand port.Config.TextMode addr c)],
        txFail := rest } }
    (ascii "OK") [RxEvent.byte 13, RxEvent.byte 10] tail
    (by simp [Flush, Serial.Flush, hfl]) (by decide) (by decide) (Or.inr ⟨10, rfl⟩)
    (by simp [hrx]; rfl)
  rw [hc]
  simp [Res.ofError, afterSendBy, withRx, Flush, Serial.Flush, hfl]

/-- A direct send that is answered by a line other than `"OK"`. -/
theorem SendToDirect_bad_response (port : Port) (addr : Int) (c l : List Nat)
    (term tail : List RxEvent)
    (htx : port.Port.txFail = []) (hfl : port.Port.flushFail = [])
    (hl : ∀ b ∈ l, b ≠ 0 ∧ b ≠ 13) (hk : l.length < 32) (hterm : IsTerminator term)
    (hne : l ≠ ascii "OK")
    (hrx : port.Port.rx = rxBytes l ++ term ++ tail) :
    SendToDirect port addr c
      = (afterSend port [lineBytes (txduCommand port.Config.TextMode addr c)] tail,
          .err Err.unknownBehaviour) := by
  unfold SendToDirect
  simp only [encode_eq]
  have hw : WriteLine port (ascii "TXDU " ++ SprintfHex 4 addr
        ++ encodePayload port.Config.TextMode c)
      = ({ port with Port := { port.Port with
            tx := port.Port.tx ++ [lineBytes (txduCommand port.Config.TextMode addr c)] } },
          (lineBytes (txduCommand port.Config.TextMode addr c)).length, none) := by
    simp [WriteLine, Serial.Write, htx, lineBytes, txduCommand]
  rw [hw]
  simp only
  have hc := CheckResult_line
    { port with Port := { port.Port with
        tx := port.Port.tx ++ [lineBytes (txduCommand port.Config.TextMode addr c)] } }
    l term tail
    (by simp [Flush, Serial.Flush, hfl]) hl hk hterm (by simp [hrx])
  rw [hc]
  simp [Res.ofError, afterSend, withRx, Flush, Serial.Flush, hfl, hne]

theorem afterSendBy_afterSendBy (port : Port) (l1 l2 : List (List Nat)) (t1 t2 : List RxEvent)
    (f1 f2 : List (Option Err)) (k1 k2 : Nat) :
    afterSendBy (afterSendBy port l1 t1 f1 k1) l2 t2 f2 k2
      = afterSendBy port (l1 ++ l2) t2 f2 (k1 + k2) := by
  simp [afterSendBy, Nat.add_assoc]

/-- The chunks `pre` are sent and answered by `"OK"`, and the write of the
next chunk `c` fails: the sequence stops there with the error of the write. -/
theorem sendSeq_write_fail (addr : Int) (c : List Nat) (post : List (List Nat)) (e : Err)
    (rest : List (Option Err)) (tail : List RxEvent) (pre : List (List Nat)) :
    ∀ port : Port,
      port.Port.txFail = List.replicate pre.length none ++ some e :: rest →
      port.Port.flushFail = [] →
      port.Port.rx = rxBytes (okLines pre.length) ++ tail →
      sendSeq addr port (pre ++ c :: post)
        = (afterSendBy port
            ((pre ++ [c]).map (fun x => lineBytes (txduCommand port.Config.TextMode addr x)))
            tail rest pre.length, .err e) := by
  induction pre with
  | nil =>
    intro port htx _ hrx
    simp only [List.length_nil, List.replicate_zero, List.nil_append] at htx
    have hrx2 : port.Port.rx = tail := by simpa [okLines, rxBytes] using hrx
    simp only [List.nil_append, sendSeq, SendToDirect_write_fail port addr c e rest htx,
      List.map_cons, List.map_nil, List.length_nil, hrx2]
  | cons p pre ih =>
    intro port htx hfl hrx
    simp only [List.length_cons, List.replicate_succ, List.cons_append] at htx
    simp only [List.length_cons, okLines_succ, rxBytes_append, List.append_assoc] at hrx
    have h1 := SendToDirect_ok_none port addr p _ _ htx hfl hrx
    have h2 := ih (afterSendBy port [lineBytes (txduCommand port.Config.TextMode addr p)]
      (rxBytes (okLines pre.length) ++ tail)
      (List.replicate pre.length none ++ some e :: rest) 1) rfl hfl rfl
    show sendSeq addr port (p :: (pre ++ c :: post)) = _
    simp only [sendSeq, h1]
    rw [h2, afterSendBy_afterSendBy]
    simp [afterSendBy, Nat.add_comm]

/-- The chunks `pre` are sent and answered by `"OK"`, and the next chunk `c`
is answered by another line: the sequence stops there with the protocol
error. -/
theorem sendSeq_bad_response (addr : Int) (c : List Nat) (post : List (List Nat))
    (l : List Nat) (term tail : List RxEvent)
    (hl : ∀ b ∈ l, b ≠ 0 ∧ b ≠ 13) (hk : l.length < 32) (hterm : IsTerminator term)
    (hne : l ≠ ascii "OK") (pre : List (List Nat)) :
    ∀ port : Port,
      port.Port.txFail = [] → port.Port.flushFail = [] →
      port.Port.rx = rxBytes (okLines pre.length) ++ (rxBytes l ++ term ++ tail) →
      sendSeq addr port (pre ++ c :: post)
        = (afterSend port
            ((pre ++ [c]).map (fun x => lineBytes (txduCommand port.Config.TextMode addr x)))
            tail, .err Err.unknownBehaviour) := by
  induction pre with
  | nil =>
    intro port htx hfl hrx
    have hrx2 : port.Port.rx = rxBytes l ++ term ++ tail := by
      simpa [okLines, rxBytes] using hrx
    simp only [List.nil_append, sendSeq,
      SendToDirect_bad_response port addr c l term tail htx hfl hl hk hterm hne hrx2,
      List.map_cons, List.map_nil]
  | cons p pre ih =>
    intro port htx hfl hrx
    simp only [List.length_cons, okLines_succ, rxBytes_append, List.append_assoc] at hrx
    have h1 := SendToDirect_ok port addr p _ htx hfl hrx
    have h2 := ih (afterSend port [lineBytes (txduCommand port.Config.TextMode addr p)]
      (rxBytes (okLines pre.length) ++ (rxBytes l ++ term ++ tail)))
      (by rw [afterSend_txFail, htx]) (by rw [afterSend_flushFail, hfl]) rfl
    simp only [List.append_assoc] at h2
    show sendSeq addr port (p :: (pre ++ c :: post)) = _
    simp only [sendSeq, h1]
    rw [h2, afterSend_afterSend]
    simp [afterSend]

/-- A direct send whose response has no terminator among its first 32
bytes: these bytes are taken as the line, which is not `"OK"`. -/
theorem SendToDirect_bad_response_full (port : Port) (addr : Int) (c l : List Nat)
    (tail : List RxEvent)
    (htx : port.Port.txFail = []) (hfl : port.Port.flushFail = [])
    (hl : ∀ b ∈ l, b ≠ 0 ∧ b ≠ 13) (hk : l.length = 32)
    (hrx : port.Port.rx = rxBytes l ++ tail) :
    SendToDirect port addr c
      = (afterSend port [lineBytes (txduCommand port.Config.TextMode addr c)] tail,
          .err Err.unknownBehaviour) := by
  unfold SendToDirect
  simp only [encode_eq]
  have hw : WriteLine port (ascii "TXDU " ++ SprintfHex 4 addr
        ++ encodePayload port.Config.TextMode c)
      = ({ port with Port := { port.Port with
            tx := port.Port.tx ++ [lineBytes (txduCommand port.Config.TextMode addr c)] } },
          (lineBytes (txduCommand port.Config.TextMode addr c)).length, none) := by
    simp [WriteLine, Serial.Write, htx, lineBytes, txduCommand]
  rw [hw]
  simp only
  have hc := CheckResult_full
    { port with Port := { port.Port with
        tx := port.Port.tx ++ [lineBytes (txduCommand port.Config.TextMode addr c)] } }
    l tail
    (by simp [Flush, Serial.Flush, hfl]) hl hk (by simp [hrx])
  rw [hc]
  simp [Res.ofError, afterSend, withRx, Flush, Serial.Flush, hfl]

/-- The chunks `pre` are sent and answered by `"OK"`, and the response to the
next chunk `c` has no terminator among its first 32 bytes: the sequence stops
there with the protocol error. -/
theorem sendSeq_bad_response_full (addr : Int) (c : List Nat) (post : List (List Nat))
    (l : List Nat) (tail : List RxEvent)
    (hl : ∀ b ∈ l, b ≠ 0 ∧ b ≠ 13) (hk : l.length = 32) (pre : List (List Nat)) :
    ∀ port : Port,
      port.Port.txFail = [] → port.Port.flushFail = [] →
      port.Port.rx = rxBytes (okLines pre.length) ++ (rxBytes l ++ tail) →
      sendSeq addr port (pre ++ c :: post)
        = (afterSend port
            ((pre ++ [c]).map (fun x => lineBytes (txduCommand port.Config.TextMode addr x)))
            tail, .err Err.unknownBehaviour) := by
  induction pre with
  | nil =>
    intro port htx hfl hrx
    have hrx2 : port.Port.rx = rxBytes l ++ tail := by
      simpa [okLines, rxBytes] using hrx
    simp only [List.nil_append, sendSeq,
      SendToDirect_bad_response_full port addr c l tail htx hfl hl hk hrx2,
      List.map_cons, List.map_nil]
  | cons p pre ih =>
    intro port htx hfl hrx
    simp only [List.length_cons, okLines_succ, rxBytes_append, List.append_assoc] at hrx
    have h1 := SendToDirect_ok port addr p _ htx hfl hrx
    have h2 := ih (afterSend port [lineBytes (txduCommand port.Config.TextMode addr p)]
      (rxBytes (okLines pre.length) ++ (rxBytes l ++ tail)))
      (by rw [afterSend_txFail, htx]) (by rw [afterSend_flushFail, hfl]) rfl
    show sendSeq addr port (p :: (pre ++ c :: post)) = _
    simp only [sendSeq, h1]
    rw [h2, afterSend_afterSend]
    simp [afterSend]

/-! ## Lemmas on the clock interface -/

/-- The scan of line 403 stores all five operands exactly when it returns no
error: a returned error always comes with fewer than five operands. -/
theorem SscanfTime_n_eq_five_iff (str : List Nat) :
    (SscanfTime str).n = 5 ↔ (SscanfTime str).err = none := by
  unfold SscanfTime
  repeat' split
  all_goals simp

/-- The test `err != nil && n == 5` of line 404 never holds. -/
theorem GetTime_guard_dead (str : List Nat) :
    (if (SscanfTime str).n = 5 then (SscanfTime str).err else none) = none := by
  by_cases h : (SscanfTime str).n = 5
  · simp [h, (SscanfTime_n_eq_five_iff str).mp h]
  · simp [h]

/-! ## Lemmas on the fuel of the receive loop -/

theorem ReadLineLoop_rx_le (fuel : Nat) : ∀ (i : Nat) (bs : List Nat) (s : Serial),
    (ReadLineLoop fuel i bs s).1.rx.length ≤ s.rx.length := by
  induction fuel with
  | zero => intro i bs s; exact Nat.le_refl _
  | succ n ih =>
    intro i bs s
    unfold ReadLineLoop Serial.Read
    rcases hrx : s.rx with _ | ⟨ev, rest⟩
    · simp [hrx]
    · cases ev with
      | fail e => simp
      | byte b =>
        simp only
        by_cases h0 : b = 0
        · simp [h0]
        · by_cases h13 : b = 13
          · simp only [h13]
            rcases rest with _ | ⟨ev2, rest2⟩
            · simp
            · cases ev2 <;> simp <;> omega
          · simp only [h0, h13, if_false]
            have := ih (i + 1) (bs.set i b) { s with rx := rest }
            simp only [List.length_cons] at this ⊢
            omega

/-- A line read that returns no error into a non-empty buffer consumes at
least one byte. -/
theorem ReadLineLoop_rx_lt (fuel : Nat) (i : Nat) (bs : List Nat) (s : Serial)
    (h : (ReadLineLoop (fuel + 1) i bs s).2.2.2 = none) :
    (ReadLineLoop (fuel + 1) i bs s).1.rx.length < s.rx.length := by
  unfold ReadLineLoop Serial.Read at h ⊢
  rcases hrx : s.rx with _ | ⟨ev, rest⟩
  · rw [hrx] at h
    simp at h
  · rw [hrx] at h
    cases ev with
    | fail e => simp at h
    | byte b =>
      simp only at h ⊢
      by_cases h0 : b = 0
      · simp [h0]
      · by_cases h13 : b = 13
        · simp only [h13]
          rcases rest with _ | ⟨ev2, rest2⟩
          · simp
          · cases ev2 <;> simp <;> omega
        · simp only [h0, h13, if_false]
          have := ReadLineLoop_rx_le fuel (i + 1) (bs.set i b) { s with rx := rest }
          simp only [List.length_cons] at this ⊢
          omega

theorem ReadLine_rx_lt (port : Port) (bs : List Nat) (hbs : bs ≠ [])
    (h : (ReadLine port bs).2.2.2 = none) :
    (ReadLine port bs).1.Port.rx.length < port.Port.rx.length := by
  obtain ⟨f, hf⟩ : ∃ f, bs.length = f + 1 :=
    ⟨bs.length - 1, by have := List.length_pos.mpr hbs; omega⟩
  simp only [ReadLine, hf] at h ⊢
  exact ReadLineLoop_rx_lt f 0 bs port.Port h

/-- The receive loop does not depend on its fuel once the fuel exceeds the
number of pending reads. -/
theorem ReceivePacketLoop_fuel (k : Nat) :
    ∀ (port : Port) (f1 f2 : Nat), port.Port.rx.length ≤ k → k < f1 → k < f2 →
      ReceivePacketLoop f1 port = ReceivePacketLoop f2 port := by
  induction k with
  | zero =>
    intro port f1 f2 hk h1 h2
    obtain ⟨a, rfl⟩ : ∃ a, f1 = a + 1 := ⟨f1 - 1, by omega⟩
    obtain ⟨b, rfl⟩ : ∃ b, f2 = b + 1 := ⟨f2 - 1, by omega⟩
    have hlt := ReadLine_rx_lt port (List.replicate 32 0) (by decide)
    unfold ReceivePacketLoop
    rcases hr : ReadLine port (List.replicate 32 0) with ⟨port1, bs, n, _ | e⟩
    · rw [hr] at hlt
      have := hlt rfl
      omega
    · rfl
  | succ k ih =>
    intro port f1 f2 hk h1 h2
    obtain ⟨a, rfl⟩ : ∃ a, f1 = a + 1 := ⟨f1 - 1, by omega⟩
    obtain ⟨b, rfl⟩ : ∃ b, f2 = b + 1 := ⟨f2 - 1, by omega⟩
    have hlt := ReadLine_rx_lt port (List.replicate 32 0) (by decide)
    unfold ReceivePacketLoop
    rcases hr : ReadLine port (List.replicate 32 0) with ⟨port1, bs, n, _ | e⟩
    · rw [hr] at hlt
      have hlt2 : port1.Port.rx.length < port.Port.rx.length := hlt rfl
      simp only
      by_cases hn : n ≥ 11
      · simp only [hn, if_true]
      · simp only [hn, if_false]
        exact ih port1 a b (by omega) (by omega) (by omega)
    · rfl

/-! ## Lemmas on the size of writes -/

theorem WritesCapped.refl (p : Port) : WritesCapped p p := ⟨[], by simp, by simp⟩

theorem WritesCapped.of_tx_eq (p q : Port) (h : q.Port.tx = p.Port.tx) : WritesCapped p q :=
  ⟨[], by simp [h], by simp⟩

theorem WritesCapped.trans (p q r : Port) (h1 : WritesCapped p q) (h2 : WritesCapped q r) :
    WritesCapped p r := by
  obtain ⟨a, ha, hla⟩ := h1
  obtain ⟨b, hb, hlb⟩ := h2
  refine ⟨a ++ b, by rw [hb, ha, List.append_assoc], ?_⟩
  intro w hw
  rcases List.mem_append.mp hw with h | h
  · exact hla w h
  · exact hlb w h

theorem Write_capped (port : Port) (bs : List Nat) : WritesCapped port (Write port bs).1 := by
  refine ⟨[if bs.length > 32 then bs.take 32 else bs], ?_, ?_⟩
  · simp only [Write]
    exact Serial.Write_tx _ _
  · intro w hw
    simp only [List.mem_singleton] at hw
    subst hw
    split
    · simp
    · omega

theorem WriteLine_capped (port : Port) (bs : List Nat) :
    WritesCapped port (WriteLine port bs).1 := by
  refine ⟨[if bs.length > 30 then bs.take 30 ++ ascii "\r\n" else bs], ?_, ?_⟩
  · simp only [WriteLine]
    exact Serial.Write_tx _ _
  · intro w hw
    simp only [List.mem_singleton] at hw
    subst hw
    have h2 : (ascii "\r\n").length = 2 := by decide
    split
    · simp only [List.length_append, List.length_take, h2]
      omega
    · omega

theorem CheckResult_capped (port : Port) : WritesCapped port (CheckResult port).1 :=
  WritesCapped.of_tx_eq _ _ (CheckResult_tx port)

theorem ReadLine_tx (port : Port) (bs : List Nat) :
    (ReadLine port bs).1.Port.tx = port.Port.tx := by
  simp only [ReadLine]
  exact ReadLineLoop_tx _ _ _ _

theorem Flush_tx (port : Port) : (Flush port).1.Port.tx = port.Port.tx := by
  unfold Flush Serial.Flush
  split <;> rfl

/-- A command written by `WriteLine` and confirmed by `CheckResult`, as
`SetBaud`, `SetTime` and each branch of `SetTextMode` do it. -/
theorem command_capped (port : Port) (cmd : List Nat) :
    WritesCapped port
      (match WriteLine port cmd with
        | (port1, _, some e) => (port1, some e)
        | (port1, _, none) => CheckResult port1).1 := by
  have hw := WriteLine_capped port cmd
  rcases hwl : WriteLine port cmd with ⟨p1, n, _ | e⟩
  · rw [hwl] at hw
    exact WritesCapped.trans _ _ _ hw (CheckResult_capped p1)
  · rw [hwl] at hw
    exact hw

theorem SendToDirect_capped (port : Port) (addr : Int) (data : List Nat) :
    WritesCapped port (SendToDirect port addr data).1 := by
  unfold SendToDirect
  simp only [encode_eq]
  have hw := WriteLine_capped port
    (ascii "TXDU " ++ SprintfHex 4 addr ++ encodePayload port.Config.TextMode data)
  rcases hwl : WriteLine port
    (ascii "TXDU " ++ SprintfHex 4 addr ++ encodePayload port.Config.TextMode data)
    with ⟨p1, n, _ | e⟩
  · rw [hwl] at hw
    exact WritesCapped.trans _ _ _ hw (CheckResult_capped p1)
  · rw [hwl] at hw
    exact hw

theorem SendToChunks_capped (addr : Int) (data : List Nat) (fuel : Nat) :
    ∀ (port : Port) (i : Nat), WritesCapped port (SendToChunks fuel port addr data i).1 := by
  induction fuel with
  | zero => intro port i; exact SendToDirect_capped port addr _
  | succ n ih =>
    intro port i
    unfold SendToChunks
    split
    · have hd := SendToDirect_capped port addr (slice data i (i + 8))
      rcases hs : SendToDirect port addr (slice data i (i + 8)) with ⟨p1, u | e | _⟩
      · rw [hs] at hd
        exact WritesCapped.trans _ _ _ hd (ih p1 (i + 8))
      · rw [hs] at hd; exact hd
      · rw [hs] at hd; exact hd
    · exact SendToDirect_capped port addr _

theorem SendTo_capped (port : Port) (addr : Int) (data : List Nat) :
    WritesCapped port (SendTo port addr data).1 := by
  unfold SendTo
  split
  · exact SendToDirect_capped port addr data
  · exact SendToChunks_capped addr data _ port 0

theorem BroadcastDirect_capped (port : Port) (data : List Nat) :
    WritesCapped port (BroadcastDirect port data).1 := by
  unfold BroadcastDirect
  simp only
  split
  · exact WritesCapped.refl port
  · exact WritesCapped.refl port
  · exact WritesCapped.trans _ _ _ (Write_capped port _) (CheckResult_capped _)

theorem BroadcastChunk_capped (port : Port) (chunk : List Nat) :
    WritesCapped port (BroadcastChunk port chunk).1 := by
  unfold BroadcastChunk
  have hd := BroadcastDirect_capped port chunk
  rcases hs : BroadcastDirect port chunk with ⟨p1, u | e | _⟩
  · rw [hs] at hd
    exact WritesCapped.trans _ _ _ hd (CheckResult_capped p1)
  · rw [hs] at hd; exact hd
  · rw [hs] at hd; exact hd

theorem BroadcastChunks_capped (data : List Nat) (fuel : Nat) :
    ∀ (port : Port) (i : Nat), WritesCapped port (BroadcastChunks fuel port data i).1 := by
  induction fuel with
  | zero => intro port i; exact BroadcastChunk_capped port _
  | succ n ih =>
    intro port i
    unfold BroadcastChunks
    split
    · have hd := BroadcastChunk_capped port (slice data i (i + 8))
      rcases hs : BroadcastChunk port (slice data i (i + 8)) with ⟨p1, u | e | _⟩
      · rw [hs] at hd
        exact WritesCapped.trans _ _ _ hd (ih p1 (i + 8))
      · rw [hs] at hd; exact hd
      · rw [hs] at hd; exact hd
    · exact BroadcastChunk_capped port _

theorem Broadcast_capped (port : Port) (data : List Nat) :
    WritesCapped port (Broadcast port data).1 := by
  unfold Broadcast
  split
  · exact BroadcastDirect_capped port data
  · exact BroadcastChunks_capped data _ port 0

theorem ReadParamsLoop_tx (fuel : Nat) : ∀ (port : Port) (params : Params),
    (ReadParamsLoop fuel port params).1.Port.tx = port.Port.tx := by
  induction fuel with
  | zero => intro port params; rfl
  | succ n ih =>
    intro port params
    unfold ReadParamsLoop
    have ht := ReadLine_tx port (List.replicate 64 0)
    rcases hr : ReadLine port (List.replicate 64 0) with ⟨p1, bs, k, _ | e⟩
    · rw [hr] at ht
      simp only at ht ⊢
      split
      · exact ht
      · rw [ih]; exact ht
    · rw [hr] at ht
      exact ht

theorem ReadParams_capped (port : Port) (params : Option Params) :
    WritesCapped port (ReadParams port params).1 := by
  have h1 := WriteLine_capped port (ascii "RPRM")
  have h2 := Flush_tx (WriteLine port (ascii "RPRM")).1
  have h3 := ReadParamsLoop_tx ((Flush (WriteLine port (ascii "RPRM")).1).1.Port.rx.length + 1)
    (Flush (WriteLine port (ascii "RPRM")).1).1 (params.getD Params.empty)
  have htx : (ReadParams port params).1.Port.tx = (WriteLine port (ascii "RPRM")).1.Port.tx := by
    rw [ReadParams_getD]
    rw [← h2, ← h3]
    rcases ReadParamsLoop ((Flush (WriteLine port (ascii "RPRM")).1).1.Port.rx.length + 1)
      (Flush (WriteLine port (ascii "RPRM")).1).1 (params.getD Params.empty)
      with ⟨p3, m, _ | e⟩
    · simp only
      split <;> rfl
    · rfl
  exact WritesCapped.trans _ _ _ h1 (WritesCapped.of_tx_eq _ _ htx)

theorem SetTextMode_capped (port : Port) (b : Bool) :
    WritesCapped port (SetTextMode port b).1 := by
  unfold SetTextMode
  split
  · exact WritesCapped.refl port
  · have hc := command_capped port (if b then ascii "ECIO" else ascii "DCIO")
    have hw : (if b then WriteLine port (ascii "ECIO") else WriteLine port (ascii "DCIO"))
        = WriteLine port (if b then ascii "ECIO" else ascii "DCIO") := by
      cases b <;> rfl
    simp only [hw]
    rcases hwl : WriteLine port (if b then ascii "ECIO" else ascii "DCIO") with ⟨p1, n, _ | e⟩
    · rw [hwl] at hc
      simp only at hc ⊢
      rcases hcr : CheckResult p1 with ⟨p2, _ | e2⟩
      · rw [hcr] at hc
        exact hc
      · rw [hcr] at hc
        exact hc
    · rw [hwl] at hc
      exact hc

theorem SetBaud_capped (port : Port) (baud : Int) : WritesCapped port (SetBaud port baud).1 :=
  command_capped port _

theorem SetTime_capped (port : Port) (h m s : Int) :
    WritesCapped port (SetTime port h m s).1 :=
  command_capped port _

theorem GetTime_capped (port : Port) : WritesCapped port (GetTime port).1 := by
  unfold GetTime
  have hw := WriteLine_capped port (ascii "RDCK")
  rcases hwl : WriteLine port (ascii "RDCK") with ⟨p1, n, _ | e⟩
  · rw [hwl] at hw
    simp only at hw ⊢
    have hr := ReadLine_tx p1 (List.replicate 32 0)
    rcases hrl : ReadLine p1 (List.replicate 32 0) with ⟨p2, dst, k, _ | e2⟩
    · rw [hrl] at hr
      simp only at hr ⊢
      have h2 : WritesCapped port p2 := WritesCapped.trans _ _ _ hw (WritesCapped.of_tx_eq _ _ hr)
      split
      · exact h2
      · have hc := CheckResult_capped p2
        rcases hcr : CheckResult p2 with ⟨p3, _ | e3⟩
        · rw [hcr] at hc
          exact WritesCapped.trans _ _ _ h2 hc
        · rw [hcr] at hc
          exact WritesCapped.trans _ _ _ h2 hc
    · rw [hrl] at hr
      exact WritesCapped.trans _ _ _ hw (WritesCapped.of_tx_eq _ _ hr)
  · rw [hwl] at hw
    exact hw

/-! ## Lemmas on the chunked broadcast -/

theorem broadcastBytes_short (c : List Nat) (h : c.length ≤ 8) :
    broadcastBytes c = ascii "TXDA " ++ c ++ ascii "\r\n" := by
  have h5 : (ascii "TXDA ").length = 5 := by decide
  have h2 : (ascii "\r\n").length = 2 := by decide
  have hn : ¬ (ascii "TXDA " ++ c ++ ascii "\r\n").length > 32 := by
    simp only [List.length_append, h5, h2]
    omega
  simp only [broadcastBytes, h, if_true, hn, if_false]

/-- One chunk of a text-mode broadcast, answered by `"OK"` twice. -/
theorem BroadcastChunk_ok (port : Port) (c : List Nat) (tail : List RxEvent)
    (hmode : port.Config.TextMode = true)
    (htx : port.Port.txFail = []) (hfl : port.Port.flushFail = [])
    (hrx : port.Port.rx = rxBytes (ascii "OK\r\n") ++ (rxBytes (ascii "OK\r\n") ++ tail)) :
    BroadcastChunk port c = (afterSendBy port [broadcastBytes c] tail [] 2, .ok ()) := by
  have hw : (Write port ((if c.length ≤ 8 then ascii "TXDA " else ascii "TXDT ") ++ c
        ++ ascii "\r\n")).1
      = { port with Port := { port.Port with tx := port.Port.tx ++ [broadcastBytes c] } } := by
    simp only [Write, Serial.Write, htx, broadcastBytes]
  have hc1 := CheckResult_line
    { port with Port := { port.Port with tx := port.Port.tx ++ [broadcastBytes c] } }
    (ascii "OK") [RxEvent.byte 13, RxEvent.byte 10] (rxBytes (ascii "OK\r\n") ++ tail)
    (by simp [Flush, Serial.Flush, hfl]) (by decide) (by decide) (Or.inr ⟨10, rfl⟩)
    (by simp [hrx]; rfl)
  have hd : BroadcastDirect port c
      = (withRx (Flush { port with Port := { port.Port with
            tx := port.Port.tx ++ [broadcastBytes c] } }).1
          (rxBytes (ascii "OK\r\n") ++ tail), .ok ()) := by
    simp only [BroadcastDirect, hmode, if_true, hw, hc1]
    rfl
  have hc2 := CheckResult_line
    (withRx (Flush { port with Port := { port.Port with
        tx := port.Port.tx ++ [broadcastBytes c] } }).1 (rxBytes (ascii "OK\r\n") ++ tail))
    (ascii "OK") [RxEvent.byte 13, RxEvent.byte 10] tail
    (by simp [Flush, Serial.Flush, hfl, withRx]) (by decide) (by decide) (Or.inr ⟨10, rfl⟩)
    (by simp [withRx]; rfl)
  simp only [BroadcastChunk, hd, hc2]
  simp [Res.ofError, afterSendBy, withRx, Flush, Serial.Flush, hfl, htx]

theorem okLines_two_succ (k : Nat) :
    okLines (2 * (k + 1)) = ascii "OK\r\n" ++ (ascii "OK\r\n" ++ okLines (2 * k)) := by
  have : 2 * (k + 1) = 2 * k + 1 + 1 := by omega
  rw [this, okLines_succ, okLines_succ]

/-- The chunked broadcast in text mode when every response is `"OK"`. -/
theorem BroadcastChunks_ok (data : List Nat) (fuel : Nat) :
    ∀ (port : Port) (i : Nat) (tail : List RxEvent),
      port.Config.TextMode = true →
      port.Port.txFail = [] → port.Port.flushFail = [] →
      port.Port.rx = rxBytes (okLines (2 * (chunksFrom fuel data i).length)) ++ tail →
      BroadcastChunks fuel port data i
        = (afterSendBy port ((chunksFrom fuel data i).map broadcastBytes) tail []
            (2 * (chunksFrom fuel data i).length), .ok ()) := by
  have hone : ∀ (port : Port) (c : List Nat) (tail : List RxEvent),
      port.Config.TextMode = true → port.Port.txFail = [] → port.Port.flushFail = [] →
      port.Port.rx = rxBytes (okLines (2 * [c].length)) ++ tail →
      BroadcastChunk port c
        = (afterSendBy port ([c].map broadcastBytes) tail [] (2 * [c].length), .ok ()) := by
    intro port c tail hmode htx hfl hrx
    have hrx2 : port.Port.rx
        = rxBytes (ascii "OK\r\n") ++ (rxBytes (ascii "OK\r\n") ++ tail) := by
      rw [hrx]
      simp [okLines, rxBytes]
    exact BroadcastChunk_ok port c tail hmode htx hfl hrx2
  induction fuel with
  | zero =>
    intro port i tail hmode htx hfl hrx
    simp only [chunksFrom] at hrx ⊢
    simp only [BroadcastChunks]
    exact hone port _ tail hmode htx hfl hrx
  | succ n ih =>
    intro port i tail hmode htx hfl hrx
    unfold BroadcastChunks
    unfold chunksFrom at hrx ⊢
    by_cases hc : i < data.length - 8
    · simp only [hc, if_true, List.length_cons, okLines_two_succ, rxBytes_append,
        List.append_assoc] at hrx
      simp only [hc, if_true, List.map_cons, List.length_cons]
      rw [BroadcastChunk_ok port _ _ hmode htx hfl hrx]
      simp only
      have h2 := ih (afterSendBy port [broadcastBytes (slice data i (i + 8))]
        (rxBytes (okLines (2 * (chunksFrom n data (i + 8)).length)) ++ tail) [] 2)
        (i + 8) tail hmode rfl hfl rfl
      rw [h2, afterSendBy_afterSendBy]
      have harith : 2 + 2 * (chunksFrom n data (i + 8)).length
          = 2 * ((chunksFrom n data (i + 8)).length + 1) := by omega
      rw [harith]
      rfl
    · simp only [hc, if_false] at hrx ⊢
      exact hone port _ tail hmode htx hfl hrx

/-- All chunks but the last have exactly 8 bytes. -/
theorem chunksFrom_dropLast (data : List Nat) (fuel : Nat) :
    ∀ i, ∀ c ∈ (chunksFrom fuel data i).dropLast, c.length = 8 := by
  have hne : ∀ f i, chunksFrom f data i ≠ [] := by
    intro f i
    cases f with
    | zero => simp [chunksFrom]
    | succ n =>
      unfold chunksFrom
      split <;> simp
  induction fuel with
  | zero => intro i c hc; simp [chunksFrom] at hc
  | succ n ih =>
    intro i c hc
    unfold chunksFrom at hc
    by_cases hcond : i < data.length - 8
    · simp only [hcond, if_true] at hc
      rw [List.dropLast_cons_of_ne_nil (hne n (i + 8))] at hc
      rcases List.mem_cons.mp hc with h | h
      · subst h
        exact slice_length data i 8 (by omega)
      · exact ih (i + 8) c h
    · simp [hcond] at hc

/-! ## Lemmas on the bytes written by a direct send -/

/-- A direct send issues one write, of the command as `WriteLine` frames
it. -/
theorem SendToDirect_tx (port : Port) (addr : Int) (data : List Nat) :
    (SendToDirect port addr data).1.Port.tx
      = port.Port.tx ++ [lineBytes (txduCommand port.Config.TextMode addr data)] := by
  unfold SendToDirect
  simp only [encode_eq]
  have hw : (WriteLine port (ascii "TXDU " ++ SprintfHex 4 addr
        ++ encodePayload port.Config.TextMode data)).1.Port.tx
      = port.Port.tx ++ [lineBytes (txduCommand port.Config.TextMode addr data)] := by
    simp only [WriteLine, lineBytes, txduCommand]
    exact Serial.Write_tx _ _
  rcases hwl : WriteLine port (ascii "TXDU " ++ SprintfHex 4 addr
      ++ encodePayload port.Config.TextMode data) with ⟨p1, n, _ | e⟩
  · rw [hwl] at hw
    simp only at hw ⊢
    rw [CheckResult_tx, hw]
  · rw [hwl] at hw
    exact hw

theorem txduCommand_eq_spec (textMode : Bool) (addr : Int) (data : List Nat)
    (h0 : 0 ≤ addr) (h1 : addr ≤ 65535) (hb : ∀ b ∈ data, b < 256) :
    txduCommand textMode addr data = txduSpec textMode addr.toNat data := by
  unfold txduCommand txduSpec encodePayload
  rw [SprintfHex_addr addr h0 h1, flatMap_hexPair data hb]

theorem ReceivePacketLoop_tx (fuel : Nat) : ∀ port : Port,
    (ReceivePacketLoop fuel port).1.Port.tx = port.Port.tx := by
  induction fuel with
  | zero => intro port; rfl
  | succ n ih =>
    intro port
    unfold ReceivePacketLoop
    have ht := ReadLine_tx port (List.replicate 32 0)
    rcases hr : ReadLine port (List.replicate 32 0) with ⟨p1, bs, k, _ | e⟩
    · rw [hr] at ht
      simp only at ht ⊢
      split
      · split
        · exact ht
        · exact ht
        · split <;> exact ht
      · rw [ih]; exact ht
    · rw [hr] at ht
      exact ht

theorem ReceivePacket_capped (port : Port) : WritesCapped port (ReceivePacket port).1 :=
  WritesCapped.of_tx_eq _ _ (ReceivePacketLoop_tx _ port)

/-! ## The claims -/

/-- C1 (the code departs from the claim): in binary mode `Broadcast` of any
non-empty payload of at most 8 bytes stops with a run-time panic (index out of
range in the hex-encoding loop, whose destination has `len(payload)` bytes
instead of `2 * len(payload)`): no command is written and no response is
read. -/
theorem C1_Broadcast_binary_panics (port : Port) (data : List Nat)
    (hmode : port.Config.TextMode = false) (hne : data ≠ []) (hlen : data.length ≤ 8) :
    Broadcast port data = (port, .panic) := by
  have h32 : data.length ≤ 32 := by omega
  have hp : hexEncodeLoop data 0 (List.replicate data.length 0) = .panic := by
    apply hexEncodeLoop_short_panics data 0 _ hne
    have : 0 < data.length := List.length_pos.mpr hne
    simp
    omega
  simp [Broadcast, BroadcastDirect, h32, hmode, hp]

/-- C1, at the failing input: the payload `"hello"` in binary mode, the call of
the repository's `main`. -/
theorem C1_Broadcast_binary_panics_witness :
    Broadcast (freshPort (ascii "OK\r\n") false) (ascii "hello")
      = (freshPort (ascii "OK\r\n") false, .panic) :=
  C1_Broadcast_binary_panics (freshPort (ascii "OK\r\n") false) (ascii "hello")
    (by decide) (by decide) (by decide)

/-- C2: for every payload of more than 32 bytes, when every response line is
`"OK"` (and the transport reports no failure), `SendTo` returns success after
issuing exactly `ceil(len(payload)/8)` TXDU commands, one per chunk, in order:
the chunks have at most 8 bytes each and concatenate to the payload, one
response line is consumed per command, and with an address in 0..65535 every
command is written whole. -/
theorem C2_SendTo_chunks (port : Port) (addr : Int) (data : List Nat) (tail : List RxEvent)
    (hlen : 32 < data.length)
    (htx : port.Port.txFail = []) (hfl : port.Port.flushFail = [])
    (hrx : port.Port.rx = rxBytes (okLines ((data.length + 7) / 8)) ++ tail) :
    ∃ chunks : List (List Nat),
      chunks.length = (data.length + 7) / 8 ∧
      (∀ c ∈ chunks, c.length ≤ 8) ∧
      chunks.flatten = data ∧
      (SendTo port addr data).2 = .ok () ∧
      (SendTo port addr data).1.Port.tx
        = port.Port.tx
          ++ chunks.map (fun c => lineBytes (txduCommand port.Config.TextMode addr c)) ∧
      (SendTo port addr data).1.Port.rx = tail ∧
      (0 ≤ addr → addr ≤ 65535 → ∀ c ∈ chunks,
        lineBytes (txduCommand port.Config.TextMode addr c)
          = txduCommand port.Config.TextMode addr c) := by
  obtain ⟨h1, h2, h3⟩ := chunksFrom_spec data data.length 0 (by omega) (by omega)
  simp only [Nat.sub_zero, List.drop_zero] at h1 h3
  have hrx2 : port.Port.rx
      = rxBytes (okLines (chunksFrom data.length data 0).length) ++ tail := by
    rw [h3]; exact hrx
  have hs := SendToChunks_ok addr data data.length port 0 tail htx hfl hrx2
  have hne : ¬ data.length ≤ 32 := by omega
  refine ⟨chunksFrom data.length data 0, h3, h2, h1, ?_, ?_, ?_, ?_⟩
  · simp only [SendTo, hne, if_false, hs]
  · simp only [SendTo, hne, if_false, hs, afterSend]
  · simp only [SendTo, hne, if_false, hs, afterSend]
  · intro h0 h65 c hc
    exact lineBytes_txduCommand _ addr c h0 h65 (h2 c hc)

/-- C2, witness: a payload of 33 bytes sent in text mode to address 258 with five
lines `"OK"` pending. -/
theorem C2_SendTo_chunks_witness :
    ∃ chunks : List (List Nat),
      chunks.length = 5 ∧
      (∀ c ∈ chunks, c.length ≤ 8) ∧
      chunks.flatten = List.range 33 ∧
      (SendTo (freshPort (okLines 5) true) 258 (List.range 33)).2 = .ok () ∧
      (SendTo (freshPort (okLines 5) true) 258 (List.range 33)).1.Port.tx
        = [] ++ chunks.map (fun c => lineBytes (txduCommand true 258 c)) ∧
      (SendTo (freshPort (okLines 5) true) 258 (List.range 33)).1.Port.rx = [] ∧
      ((0 : Int) ≤ 258 → (258 : Int) ≤ 65535 → ∀ c ∈ chunks,
        lineBytes (txduCommand true 258 c) = txduCommand true 258 c) :=
  C2_SendTo_chunks (freshPort (okLines 5) true) 258 (List.range 33) []
    (by decide) rfl rfl (by decide)

/-- C3 (the code departs from the claim): in binary mode, on the line whose
offsets 3..6 are `"0102"`, offsets 8..9 are `"30"` and offsets 11.. are
`"48656c6c6f"`, `ReceivePacket` returns a scanning error and no packet. -/
theorem C3_ReceivePacket_hello_fails :
    (ReceivePacket (freshPort (ascii "00,0102,30:48656c6c6f\r\n") false)).2 = .err Err.scan := by
  decide

/-- C4 (the code departs from the claim): the payload `"H"` (one byte, 0x48)
is encoded by the loop of `SendTo` as `"48"`; the binary decoding step of
`ReceivePacket`, applied to the receive buffer holding `"48"` at offset 11
(followed by the zero bytes of the 32-byte buffer), returns a scanning error,
and applied to exactly the two bytes `"48"` it returns the single byte 4: in
neither case the payload `"H"`. -/
theorem C4_binary_codec_no_round_trip :
    hexEncodeLoop [0x48] 0 (List.replicate 2 0) = .ok (ascii "48") ∧
    decodeBinary (ascii "48" ++ List.replicate 19 0) 2 = .err Err.scan ∧
    decodeBinary (ascii "48") 2 = .ok [4] := by
  decide

/-- C5 (as the code has it): when flushing succeeds and the pending input
starts with a line `l`, `CheckResult` writes nothing and
(1) if `l` has fewer than 32 bytes and is followed by its terminator, it
returns success if and only if `l` is exactly `"OK"`, returns the protocol
error for every other line, and consumes exactly that line with its
terminator;
(2) if the first 32 bytes hold no terminator, it takes these 32 bytes as the
line, returns the protocol error and leaves the rest of the line unread. -/
theorem C5_CheckResult_line (port : Port) (l : List Nat) (term tail : List RxEvent)
    (hflush : (Flush port).2 = none) (hl : ∀ b ∈ l, b ≠ 0 ∧ b ≠ 13) :
    (CheckResult port).1.Port.tx = port.Port.tx ∧
    (l.length < 32 → IsTerminator term → port.Port.rx = rxBytes l ++ term ++ tail →
      ((CheckResult port).2 = none ↔ l = ascii "OK") ∧
      (l ≠ ascii "OK" → (CheckResult port).2 = some Err.unknownBehaviour) ∧
      (CheckResult port).1 = withRx (Flush port).1 tail ∧
      (CheckResult port).1.Port.rx = tail) ∧
    (l.length = 32 → port.Port.rx = rxBytes l ++ tail →
      (CheckResult port).2 = some Err.unknownBehaviour ∧
      (CheckResult port).1 = withRx (Flush port).1 tail ∧
      (CheckResult port).1.Port.rx = tail) := by
  refine ⟨CheckResult_tx port, ?_, ?_⟩
  · intro hk hterm hrx
    have h := CheckResult_line port l term tail hflush hl hk hterm hrx
    rw [h]
    refine ⟨?_, ?_, rfl, rfl⟩
    · by_cases hok : l = ascii "OK" <;> simp [hok]
    · intro hne
      simp [hne]
  · intro hk hrx
    have h := CheckResult_full port l tail hflush hl hk hrx
    rw [h]
    exact ⟨rfl, rfl, rfl⟩

/-- C5, witness: the line `"ERR"` followed by the line `"OK"`, and the line
`"OK"` alone. -/
theorem C5_CheckResult_line_witness :
    ((CheckResult (freshPort (ascii "ERR\r\nOK\r\n") false)).2 = none
        ↔ ascii "ERR" = ascii "OK") ∧
    (CheckResult (freshPort (ascii "ERR\r\nOK\r\n") false)).2 = some Err.unknownBehaviour ∧
    (CheckResult (freshPort (ascii "ERR\r\nOK\r\n") false)).1.Port.rx
      = rxBytes (ascii "OK\r\n") ∧
    (CheckResult (freshPort (ascii "OK\r\n") false)).2 = none :=
  have h := (C5_CheckResult_line (freshPort (ascii "ERR\r\nOK\r\n") false) (ascii "ERR")
    [RxEvent.byte 13, RxEvent.byte 10] (rxBytes (ascii "OK\r\n"))
    (by decide) (by decide)).2.1 (by decide) (Or.inr ⟨10, rfl⟩) (by decide)
  have h2 := (C5_CheckResult_line (freshPort (ascii "OK\r\n") false) (ascii "OK")
    [RxEvent.byte 13, RxEvent.byte 10] []
    (by decide) (by decide)).2.1 (by decide) (Or.inr ⟨10, rfl⟩) (by decide)
  ⟨h.1, h.2.1 (by decide), h.2.2.2, h2.1.mpr rfl⟩

/-- C5, counterexample: on a line of 33 bytes `'A'` followed by carriage
return and newline, `CheckResult` reads without error, returns the protocol
error and consumes 32 bytes only: the last byte of the line and its terminator
stay in the stream. -/
theorem C5_CheckResult_long_line_counterexample :
    (CheckResult (freshPort (List.replicate 33 65 ++ ascii "\r\n") false)).2
      = some Err.unknownBehaviour ∧
    (CheckResult (freshPort (List.replicate 33 65 ++ ascii "\r\n") false)).1.Port.rx
      = rxBytes (65 :: ascii "\r\n") := by
  decide

/-- C6: `SetTextMode` called with the mode that `Config.TextMode` already has
returns success and leaves the whole connection as it was: no write, no read,
no flush, and the same `Config`. -/
theorem C6_SetTextMode_same_mode (port : Port) (b : Bool) (h : b = port.Config.TextMode) :
    SetTextMode port b = (port, none) := by
  simp [SetTextMode, h]

/-- C6, witness: text mode requested on a connection that is in text mode. -/
theorem C6_SetTextMode_same_mode_witness :
    SetTextMode (freshPort (ascii "OK\r\n") true) true
      = (freshPort (ascii "OK\r\n") true, none) :=
  C6_SetTextMode_same_mode (freshPort (ascii "OK\r\n") true) true (by decide)

/-- C7: `SetTextMode` called with a mode `b` other than the current one writes
the command `"ECIO"` (for `b = true`) or `"DCIO"` (for `b = false`) and nothing
else.  If that write fails, or if the result check after it fails, it returns
that error and `Config` is unchanged; if the result check succeeds it returns
success, `Config.TextMode` is `b` and the other fields of `Config` are
unchanged. -/
theorem C7_SetTextMode_toggle (port : Port) (b : Bool) (h : b ≠ port.Config.TextMode) :
    (SetTextMode port b).1.Port.tx
        = port.Port.tx ++ [if b then ascii "ECIO" else ascii "DCIO"] ∧
    (∀ e, (WriteLine port (if b then ascii "ECIO" else ascii "DCIO")).2.2 = some e →
        (SetTextMode port b).2 = some e ∧ (SetTextMode port b).1.Config = port.Config) ∧
    ((WriteLine port (if b then ascii "ECIO" else ascii "DCIO")).2.2 = none →
      (∀ e, (CheckResult (WriteLine port (if b then ascii "ECIO" else ascii "DCIO")).1).2
            = some e →
        (SetTextMode port b).2 = some e ∧ (SetTextMode port b).1.Config = port.Config) ∧
      ((CheckResult (WriteLine port (if b then ascii "ECIO" else ascii "DCIO")).1).2 = none →
        (SetTextMode port b).2 = none ∧
        (SetTextMode port b).1.Config = { port.Config with TextMode := b })) := by
  have hne : ¬ port.Config.TextMode = b := fun hc => h hc.symm
  have hw : (if b then WriteLine port (ascii "ECIO") else WriteLine port (ascii "DCIO"))
      = WriteLine port (if b then ascii "ECIO" else ascii "DCIO") := by
    cases b <;> rfl
  have hlen : ¬ (if b then ascii "ECIO" else ascii "DCIO").length > 30 := by
    cases b <;> decide
  have htx : (WriteLine port (if b then ascii "ECIO" else ascii "DCIO")).1.Port.tx
      = port.Port.tx ++ [if b then ascii "ECIO" else ascii "DCIO"] := by
    simp only [WriteLine, hlen, if_false]
    exact Serial.Write_tx _ _
  have hcfg := WriteLine_Config port (if b then ascii "ECIO" else ascii "DCIO")
  have hctx := CheckResult_tx (WriteLine port (if b then ascii "ECIO" else ascii "DCIO")).1
  have hccfg := CheckResult_Config (WriteLine port (if b then ascii "ECIO" else ascii "DCIO")).1
  simp only [SetTextMode, hne, if_false, hw]
  rcases hwl : WriteLine port (if b then ascii "ECIO" else ascii "DCIO") with ⟨p1, n, _ | e⟩
  · rw [hwl] at htx hcfg hctx hccfg
    simp only at htx hcfg hctx hccfg ⊢
    rcases hcr : CheckResult p1 with ⟨p2, _ | e2⟩
    · rw [hcr] at hctx hccfg
      simp only at hctx hccfg ⊢
      simp [hctx, htx, hccfg, hcfg]
    · rw [hcr] at hctx hccfg
      simp only at hctx hccfg ⊢
      simp [hctx, htx, hccfg, hcfg]
  · rw [hwl] at htx hcfg
    simp only at htx hcfg ⊢
    simp [htx, hcfg]

/-- C7, witness: text mode requested on a connection in binary mode, answered
by `"OK"`. -/
theorem C7_SetTextMode_toggle_witness :
    (SetTextMode (freshPort (ascii "OK\r\n") false) true).1.Port.tx = [ascii "ECIO"] ∧
    (SetTextMode (freshPort (ascii "OK\r\n") false) true).2 = none ∧
    (SetTextMode (freshPort (ascii "OK\r\n") false) true).1.Config
      = { (freshPort (ascii "OK\r\n") false).Config with TextMode := true } :=
  have h := C7_SetTextMode_toggle (freshPort (ascii "OK\r\n") false) true (by decide)
  ⟨h.1, (h.2.2 (by decide)).2 (by decide)⟩

/-- C8 (as the code has it): when the response is made of keyed lines, each
shorter than the 64-byte line buffer of `ReadParams`, followed by a first line
`T` without a colon, also shorter than 64 bytes, `ReadParams` splits every
keyed line at its first colon and stores it under its key, stops at `T` (the
input after `T` is left unread), sets `Config.TextMode` to true exactly when
`T` contains `"ECIO"`, and parses the value held under `"STNN"` (the value of
the last line with that key) with `strconv.Atoi`: on success it returns no
error and `Config.Id` is that integer; on failure, in particular when no such
value exists, it returns the error and leaves `Config.Id`. -/
theorem C8_ReadParams_lines (port : Port) (params0 : Option Params) (ls : List ParamLine)
    (T : List Nat) (termT tail : List RxEvent)
    (hls : ∀ pl ∈ ls, pl.WellFormed)
    (hT : 58 ∉ T) (hTt : ∀ b ∈ T, b ≠ 0 ∧ b ≠ 13) (hTlen : T.length < 64)
    (htermT : IsTerminator termT)
    (hrx : port.Port.rx = ls.flatMap ParamLine.rx ++ (rxBytes T ++ termT ++ tail)) :
    (ReadParams port params0).2.1
        = (storeLines (params0.getD Params.empty) ls).set (ascii "_") T ∧
    (ReadParams port params0).1.Port.rx = tail ∧
    ((ReadParams port params0).1.Config.TextMode = true ↔ ascii "ECIO" <:+: T) ∧
    (∀ id, Atoi ((ReadParams port params0).2.1.get (ascii "STNN")) = some id →
        (ReadParams port params0).2.2 = none ∧ (ReadParams port params0).1.Config.Id = id) ∧
    (Atoi ((ReadParams port params0).2.1.get (ascii "STNN")) = none →
        (ReadParams port params0).2.2 = some Err.atoi ∧
        (ReadParams port params0).1.Config.Id = port.Config.Id) ∧
    (∀ pre pl post, ls = pre ++ pl :: post → pl.key = ascii "STNN" →
        (∀ q ∈ post, q.key ≠ ascii "STNN") →
        (ReadParams port params0).2.1.get (ascii "STNN") = pl.val) ∧
    ((∀ q ∈ ls, q.key ≠ ascii "STNN") → params0 = none →
        (ReadParams port params0).2.1.get (ascii "STNN") = [] ∧
        (ReadParams port params0).2.2 = some Err.atoi) := by
  have hloop := ReadParams_lines port params0 ls T termT tail hls hT hTt hTlen htermT hrx
  have hcfg : (Flush (WriteLine port (ascii "RPRM")).1).1.Config = port.Config := rfl
  have hne : ¬ (ascii "STNN" = ascii "_") := by decide
  have hget : ∀ m : Params, (m.set (ascii "_") T).get (ascii "STNN") = m.get (ascii "STNN") := by
    intro m
    simp [Params.get, Params.set, hne]
  -- the result, by cases on the outcome of `Atoi`
  have hmain : ∀ r, Atoi ((storeLines (params0.getD Params.empty) ls).get (ascii "STNN")) = r →
      (ReadParams port params0).2.1
          = (storeLines (params0.getD Params.empty) ls).set (ascii "_") T ∧
      (ReadParams port params0).1.Port.rx = tail ∧
      (ReadParams port params0).1.Config.TextMode = Contains T (ascii "ECIO") ∧
      (ReadParams port params0).2.2 = (match r with
        | some _ => none
        | none => some Err.atoi) ∧
      (ReadParams port params0).1.Config.Id = (match r with
        | some id => id
        | none => port.Config.Id) := by
    intro r hr
    rw [ReadParams_getD]
    simp only [hloop, hget, hr]
    have hT2 : ((storeLines (params0.getD Params.empty) ls).set (ascii "_") T).get (ascii "_")
        = T := by
      simp [Params.get, Params.set]
    cases r with
    | none => simp [hT2, withRx, hcfg]
    | some id => simp [hT2, withRx, hcfg]
  obtain ⟨h1, h2, h3, h4, h5⟩ := hmain _ rfl
  have hlast : ∀ pre pl post, ls = pre ++ pl :: post → pl.key = ascii "STNN" →
      (∀ q ∈ post, q.key ≠ ascii "STNN") →
      (storeLines (params0.getD Params.empty) ls).get (ascii "STNN") = pl.val := by
    intro pre pl post hls2 hkey hpost
    subst hls2
    have hc : pre ++ pl :: post = (pre ++ [pl]) ++ post := by simp
    simp only [Params.get]
    rw [hc, storeLines_append, storeLines_other _ post hpost, storeLines_append]
    simp [storeLines, Params.set, hkey]
  have habsent : (∀ q ∈ ls, q.key ≠ ascii "STNN") → params0 = none →
      (storeLines (params0.getD Params.empty) ls).get (ascii "STNN") = [] := by
    intro hno hp
    subst hp
    simp only [Params.get]
    rw [storeLines_other _ ls hno]
    rfl
  refine ⟨h1, h2, ?_, ?_, ?_, ?_, ?_⟩
  · rw [h3]; exact Contains_iff_infix T (ascii "ECIO")
  · intro id hid
    rw [h1, hget] at hid
    rw [h4, h5, hid]
    exact ⟨rfl, rfl⟩
  · intro hnone
    rw [h1, hget] at hnone
    rw [h4, h5, hnone]
    exact ⟨rfl, rfl⟩
  · intro pre pl post hls2 hkey hpost
    rw [h1, hget]
    exact hlast pre pl post hls2 hkey hpost
  · intro hno hp
    have hg := habsent hno hp
    refine ⟨by rw [h1, hget]; exact hg, ?_⟩
    rw [h4, hg]
    rfl

/-- C8, witness: the keyed line `"STNN:7"` followed by the line `"ECIO"`. -/
theorem C8_ReadParams_lines_witness :
    (ReadParams (freshPort (ascii "STNN:7\r\nECIO\r\n") false) none).2.2 = none ∧
    (ReadParams (freshPort (ascii "STNN:7\r\nECIO\r\n") false) none).1.Config.Id = 7 ∧
    (ReadParams (freshPort (ascii "STNN:7\r\nECIO\r\n") false) none).1.Config.TextMode = true :=
  have h := C8_ReadParams_lines (freshPort (ascii "STNN:7\r\nECIO\r\n") false) none
    [⟨ascii "STNN", ascii "7", [RxEvent.byte 13, RxEvent.byte 10]⟩] (ascii "ECIO")
    [RxEvent.byte 13, RxEvent.byte 10] []
    (fun pl hpl => by
      simp only [List.mem_singleton] at hpl
      subst hpl
      exact ⟨by decide, by decide, by decide, Or.inr ⟨10, rfl⟩⟩)
    (by decide) (by decide) (by decide) (Or.inr ⟨10, rfl⟩) (by decide)
  ⟨(h.2.2.2.1 7 (by decide)).1, (h.2.2.2.1 7 (by decide)).2, h.2.2.1.mpr (List.infix_refl _)⟩

/-- C8, counterexample: the response is the keyed line `"STNN:"` followed by
sixty `'0'` and a `'7'` (66 bytes, value 7) and then the line `"ECIO"` without
colon.  `ReadParams` reads the first 64 bytes as one line and the remaining
`"07"` as the line without colon: it returns no error with `Config.Id = 0` and
`Config.TextMode = false`, and leaves the line `"ECIO"` unread. -/
theorem C8_ReadParams_long_line_counterexample :
    (ReadParams (freshPort (ascii "STNN:" ++ List.replicate 60 48 ++ ascii "7\r\nECIO\r\n") false)
        none).2.2 = none ∧
    (ReadParams (freshPort (ascii "STNN:" ++ List.replicate 60 48 ++ ascii "7\r\nECIO\r\n") false)
        none).1.Config.Id = 0 ∧
    (ReadParams (freshPort (ascii "STNN:" ++ List.replicate 60 48 ++ ascii "7\r\nECIO\r\n") false)
        none).1.Config.TextMode = false ∧
    (ReadParams (freshPort (ascii "STNN:" ++ List.replicate 60 48 ++ ascii "7\r\nECIO\r\n") false)
        none).1.Port.rx = rxBytes (ascii "ECIO\r\n") ∧
    Atoi (List.replicate 60 48 ++ ascii "7") = some 7 := by
  decide

/-- C9 (the code departs from the claim): for every byte sequence of at most
30 bytes `WriteLine` hands the bytes to the transport as they are, with no
carriage return and newline after them. -/
theorem C9_WriteLine_short_unterminated (port : Port) (bs : List Nat)
    (h : bs.length ≤ 30) :
    (WriteLine port bs).1.Port.tx = port.Port.tx ++ [bs] := by
  have hlen : ¬ bs.length > 30 := by omega
  simp only [WriteLine, hlen, if_false]
  exact Serial.Write_tx _ _

/-- C9, at the failing input: the command `"RPRM"` is written as its four bytes. -/
theorem C9_WriteLine_short_unterminated_witness :
    (WriteLine (freshPort [] false) (ascii "RPRM")).1.Port.tx = [[82, 80, 82, 77]] :=
  C9_WriteLine_short_unterminated (freshPort [] false) (ascii "RPRM") (by decide)

/-- C10: `ReadLine` on a buffer of `len(bs)` bytes.  When the first NUL or
carriage return of the input comes after `k < len(bs)` other bytes `l`,
`ReadLine` returns `k` and no error, the first `k` bytes of the buffer are
`l`, and the input is consumed up to and including the NUL, or up to and
including the byte that follows the carriage return.  When the first `len(bs)`
bytes hold no terminator, it returns `len(bs)` and no error with those bytes in
the buffer, and the input after them is left unread. -/
theorem C10_ReadLine_framing (port : Port) (bs l : List Nat) (x : Nat)
    (tail : List RxEvent) (hl : ∀ b ∈ l, b ≠ 0 ∧ b ≠ 13) :
    (l.length < bs.length →
      ReadLine (withRx port (rxBytes l ++ RxEvent.byte 0 :: tail)) bs
        = (withRx port tail, l ++ bs.drop l.length, l.length, none) ∧
      ReadLine (withRx port (rxBytes l ++ RxEvent.byte 13 :: RxEvent.byte x :: tail)) bs
        = (withRx port tail, l ++ bs.drop l.length, l.length, none) ∧
      (l ++ bs.drop l.length).take l.length = l) ∧
    (l.length = bs.length →
      ReadLine (withRx port (rxBytes l ++ tail)) bs = (withRx port tail, l, bs.length, none)) :=
  ⟨fun hk => ⟨ReadLine_nul port bs l tail hl hk, ReadLine_cr port bs l x tail hl hk, by simp⟩,
   fun hk => ReadLine_full port bs l tail hl hk⟩

/-- C10, witness: `"OK"` ended by NUL and by carriage return and newline in a
buffer of 4 bytes, and the input `"OKA..."` in a buffer of 2 bytes. -/
theorem C10_ReadLine_framing_witness :
    (ReadLine (withRx (freshPort [] false) (rxBytes [79, 75] ++ RxEvent.byte 0 :: rxBytes [65]))
        [0, 0, 0, 0]
      = (withRx (freshPort [] false) (rxBytes [65]), [79, 75, 0, 0], 2, none) ∧
     ReadLine (withRx (freshPort [] false)
          (rxBytes [79, 75] ++ RxEvent.byte 13 :: RxEvent.byte 10 :: rxBytes [65])) [0, 0, 0, 0]
      = (withRx (freshPort [] false) (rxBytes [65]), [79, 75, 0, 0], 2, none)) ∧
    ReadLine (withRx (freshPort [] false) (rxBytes [79, 75] ++ rxBytes [65, 13, 10])) [0, 0]
      = (withRx (freshPort [] false) (rxBytes [65, 13, 10]), [79, 75], 2, none) :=
  ⟨⟨((C10_ReadLine_framing (freshPort [] false) [0, 0, 0, 0] [79, 75] 10 (rxBytes [65])
        (by decide)).1 (by decide)).1,
    ((C10_ReadLine_framing (freshPort [] false) [0, 0, 0, 0] [79, 75] 10 (rxBytes [65])
        (by decide)).1 (by decide)).2.1⟩,
   (C10_ReadLine_framing (freshPort [] false) [0, 0] [79, 75] 10 (rxBytes [65, 13, 10])
      (by decide)).2 (by decide)⟩

/-- C11 (as the code has it): for every address in 0..65535 and every payload
of at most 32 bytes, the command that `SendTo` hands to `WriteLine` is `"TXDU "`
followed by the address as exactly 4 zero-padded lowercase hexadecimal digits
and by the encoded payload: the payload itself in text mode, and in binary
mode `2 * len` characters of which positions `2i` and `2i+1` are the lowercase
hexadecimal digits of the high and of the low nibble of byte `i`.  When the
write succeeds `SendTo` calls `CheckResult` once and returns its result; when
the write fails `SendTo` returns the error of the write and `CheckResult` is
not called. -/
theorem C11_SendTo_command (port : Port) (addr : Int) (data : List Nat)
    (h0 : 0 ≤ addr) (h1 : addr ≤ 65535) (hlen : data.length ≤ 32)
    (hb : ∀ b ∈ data, b < 256) :
    ((WriteLine port (txduSpec port.Config.TextMode addr.toNat data)).2.2 = none →
      SendTo port addr data
        = ((CheckResult (WriteLine port (txduSpec port.Config.TextMode addr.toNat data)).1).1,
            Res.ofError
              (CheckResult (WriteLine port (txduSpec port.Config.TextMode addr.toNat data)).1).2)) ∧
    (∀ e, (WriteLine port (txduSpec port.Config.TextMode addr.toNat data)).2.2 = some e →
      SendTo port addr data
        = ((WriteLine port (txduSpec port.Config.TextMode addr.toNat data)).1, .err e)) ∧
    (hex4 addr.toNat).length = 4 ∧
    (data.flatMap hexByte).length = 2 * data.length ∧
    (∀ i, i < data.length →
      (data.flatMap hexByte)[2 * i]? = some (hexChar (data.getD i 0 / 16)) ∧
      (data.flatMap hexByte)[2 * i + 1]? = some (hexChar (data.getD i 0 % 16))) := by
  have hcmd : ascii "TXDU " ++ SprintfHex 4 addr ++ encodePayload port.Config.TextMode data
      = txduSpec port.Config.TextMode addr.toNat data := by
    rw [SprintfHex_addr addr h0 h1]
    unfold txduSpec encodePayload
    rw [flatMap_hexPair data hb]
  have hsend : SendTo port addr data
      = match WriteLine port (txduSpec port.Config.TextMode addr.toNat data) with
        | (port1, _, some e) => (port1, .err e)
        | (port1, _, none) => ((CheckResult port1).1, Res.ofError (CheckResult port1).2) := by
    rw [SendTo_of_le port addr data hlen]
    unfold SendToDirect
    simp only [encode_eq, hcmd]
  refine ⟨?_, ?_, rfl, (flatMap_hexByte_get data).1, (flatMap_hexByte_get data).2⟩
  · intro hw
    rw [hsend]
    rcases hwl : WriteLine port (txduSpec port.Config.TextMode addr.toNat data)
      with ⟨p1, n, _ | e⟩
    · rfl
    · rw [hwl] at hw; cases hw
  · intro e hw
    rw [hsend]
    rcases hwl : WriteLine port (txduSpec port.Config.TextMode addr.toNat data)
      with ⟨p1, n, _ | e2⟩
    · rw [hwl] at hw; cases hw
    · rw [hwl] at hw
      cases hw
      rfl

/-- C11, witness: the payload `"Hello"` sent in binary mode to address 258 and
answered by `"OK"`. -/
theorem C11_SendTo_command_witness :
    SendTo (freshPort (ascii "OK\r\n") false) 258 (ascii "Hello")
      = ((CheckResult (WriteLine (freshPort (ascii "OK\r\n") false)
            (ascii "TXDU 010248656c6c6f")).1).1, .ok ()) :=
  (C11_SendTo_command (freshPort (ascii "OK\r\n") false) 258 (ascii "Hello")
    (by decide) (by decide) (by decide) (by decide)).1 (by decide)

/-- C11, counterexample: the write of the command fails with a transport
error.  `SendTo` returns that error and does not call `CheckResult`: nothing is
flushed and the pending response `"OK"` is not read. -/
theorem C11_SendTo_write_failure_counterexample :
    (SendTo (failingWritePort (ascii "OK\r\n") true (Err.io 5)) 258 (ascii "Hello")).2
      = .err (Err.io 5) ∧
    (SendTo (failingWritePort (ascii "OK\r\n") true (Err.io 5)) 258 (ascii "Hello")).1.Port.flushes
      = 0 ∧
    (SendTo (failingWritePort (ascii "OK\r\n") true (Err.io 5)) 258 (ascii "Hello")).1.Port.rx
      = rxBytes (ascii "OK\r\n") := by
  decide

/-- C12 (the code departs from the claim): in text mode `Broadcast` of a
payload of at most 32 bytes issues one write and then one `CheckResult`.  For
a payload of at most 25 bytes the write is the keyword, the payload and
carriage return + newline.  For a payload of 26 to 32 bytes the write is only
the first 32 bytes of that line, because `Write` cuts at 32 bytes: the newline,
and from 27 bytes on the carriage return and the end of the payload, are not
written. -/
theorem C12_Broadcast_text_write (port : Port) (data : List Nat)
    (hmode : port.Config.TextMode = true) (hlen : data.length ≤ 32) :
    Broadcast port data
      = ((CheckResult (Write port
            ((if data.length ≤ 8 then ascii "TXDA " else ascii "TXDT ") ++ data
              ++ ascii "\r\n")).1).1,
         Res.ofError (CheckResult (Write port
            ((if data.length ≤ 8 then ascii "TXDA " else ascii "TXDT ") ++ data
              ++ ascii "\r\n")).1).2) ∧
    (data.length ≤ 25 →
      (Broadcast port data).1.Port.tx
        = port.Port.tx
          ++ [(if data.length ≤ 8 then ascii "TXDA " else ascii "TXDT ") ++ data
                ++ ascii "\r\n"]) ∧
    (26 ≤ data.length →
      (Broadcast port data).1.Port.tx
        = port.Port.tx ++ [(ascii "TXDT " ++ data ++ ascii "\r\n").take 32] ∧
      ((ascii "TXDT " ++ data ++ ascii "\r\n").take 32).length = 32 ∧
      (ascii "TXDT " ++ data ++ ascii "\r\n").length = data.length + 7) := by
  have hb : Broadcast port data
      = ((CheckResult (Write port
            ((if data.length ≤ 8 then ascii "TXDA " else ascii "TXDT ") ++ data
              ++ ascii "\r\n")).1).1,
         Res.ofError (CheckResult (Write port
            ((if data.length ≤ 8 then ascii "TXDA " else ascii "TXDT ") ++ data
              ++ ascii "\r\n")).1).2) := by
    rw [Broadcast_of_le port data hlen]
    simp [BroadcastDirect, hmode]
  have h5a : (ascii "TXDA ").length = 5 := by decide
  have h5t : (ascii "TXDT ").length = 5 := by decide
  have h2 : (ascii "\r\n").length = 2 := by decide
  refine ⟨hb, ?_, ?_⟩
  · intro h25
    rw [hb]
    simp only [CheckResult_tx]
    have hk : ((if data.length ≤ 8 then ascii "TXDA " else ascii "TXDT ")).length = 5 := by
      split <;> assumption
    have hnot : ¬ ((if data.length ≤ 8 then ascii "TXDA " else ascii "TXDT ") ++ data
        ++ ascii "\r\n").length > 32 := by
      simp only [List.length_append, hk, h2]
      omega
    simp only [Write, hnot, if_false]
    exact Serial.Write_tx _ _
  · intro h26
    have h8 : ¬ data.length ≤ 8 := by omega
    have hfull : (ascii "TXDT " ++ data ++ ascii "\r\n").length = data.length + 7 := by
      simp only [List.length_append, h5t, h2]
      omega
    refine ⟨?_, ?_, hfull⟩
    · rw [hb]
      simp only [CheckResult_tx, h8, if_false]
      have hgt : (ascii "TXDT " ++ data ++ ascii "\r\n").length > 32 := by omega
      simp only [Write, hgt, if_true]
      exact Serial.Write_tx _ _
    · rw [List.length_take, hfull]
      omega

/-- C12, at the failing input: 26 bytes `'A'` in text mode.  The write is 32
bytes and ends with the carriage return; the newline is not written. -/
theorem C12_Broadcast_text_write_witness :
    (Broadcast (freshPort (ascii "OK\r\n") true) (List.replicate 26 65)).1.Port.tx
      = [ascii "TXDT " ++ List.replicate 26 65 ++ [13]] :=
  ((C12_Broadcast_text_write (freshPort (ascii "OK\r\n") true) (List.replicate 26 65)
    (by decide) (by decide)).2.2 (by decide)).1

/-- C13: for every payload of more than 32 bytes, cut into its chunks as for
a successful send, let `j` chunks be sent and answered by `"OK"` and let the
send of the next chunk, chunk `j+1`, be the first that fails.
(1) If the write of chunk `j+1` fails, `SendTo` returns the error of that
write.  (2) If the response to chunk `j+1` is a terminated line of fewer than
32 bytes other than `"OK"`, `SendTo` returns the protocol error and the line
with its terminator is consumed.  (3) If the response to chunk `j+1` has no
terminator among its first 32 bytes (a line of 32 bytes or more, never `"OK"`),
`SendTo` returns the protocol error and these 32 bytes are consumed.  In all
cases the writes issued are exactly the commands of chunks `1..j+1`, in order
and once each, and nothing is written for a later chunk. -/
theorem C13_SendTo_fail_fast (port : Port) (addr : Int) (data : List Nat) (j : Nat)
    (e : Err) (rest : List (Option Err)) (l : List Nat) (term tail : List RxEvent)
    (hlen : 32 < data.length) (hj : j < (data.length + 7) / 8)
    (hfl : port.Port.flushFail = []) :
    ∃ chunks : List (List Nat),
      chunks.length = (data.length + 7) / 8 ∧
      (∀ c ∈ chunks, c.length ≤ 8) ∧
      chunks.flatten = data ∧
      (port.Port.txFail = List.replicate j none ++ some e :: rest →
        port.Port.rx = rxBytes (okLines j) ++ tail →
        (SendTo port addr data).2 = .err e ∧
        (SendTo port addr data).1.Port.tx
          = port.Port.tx ++ (chunks.take (j + 1)).map
              (fun c => lineBytes (txduCommand port.Config.TextMode addr c)) ∧
        (SendTo port addr data).1.Port.rx = tail) ∧
      (port.Port.txFail = [] →
        (∀ b ∈ l, b ≠ 0 ∧ b ≠ 13) → l.length < 32 → IsTerminator term → l ≠ ascii "OK" →
        port.Port.rx = rxBytes (okLines j) ++ (rxBytes l ++ term ++ tail) →
        (SendTo port addr data).2 = .err Err.unknownBehaviour ∧
        (SendTo port addr data).1.Port.tx
          = port.Port.tx ++ (chunks.take (j + 1)).map
              (fun c => lineBytes (txduCommand port.Config.TextMode addr c)) ∧
        (SendTo port addr data).1.Port.rx = tail) ∧
      (port.Port.txFail = [] →
        (∀ b ∈ l, b ≠ 0 ∧ b ≠ 13) → l.length = 32 →
        port.Port.rx = rxBytes (okLines j) ++ (rxBytes l ++ tail) →
        (SendTo port addr data).2 = .err Err.unknownBehaviour ∧
        (SendTo port addr data).1.Port.tx
          = port.Port.tx ++ (chunks.take (j + 1)).map
              (fun c => lineBytes (txduCommand port.Config.TextMode addr c)) ∧
        (SendTo port addr data).1.Port.rx = tail) := by
  obtain ⟨h1, h2, h3⟩ := chunksFrom_spec data data.length 0 (by omega) (by omega)
  simp only [Nat.sub_zero, List.drop_zero] at h1 h3
  have hne : ¬ data.length ≤ 32 := by omega
  have hsend : SendTo port addr data = sendSeq addr port (chunksFrom data.length data 0) := by
    simp only [SendTo, hne, if_false]
    exact SendToChunks_eq_sendSeq addr data data.length port 0
  have hjc : j < (chunksFrom data.length data 0).length := by rw [h3]; exact hj
  obtain ⟨pre, c, post, hdec, hpre⟩ : ∃ pre c post,
      chunksFrom data.length data 0 = pre ++ c :: post ∧ pre.length = j :=
    ⟨(chunksFrom data.length data 0).take j, (chunksFrom data.length data 0)[j],
      (chunksFrom data.length data 0).drop (j + 1),
      by rw [← List.drop_eq_getElem_cons hjc, List.take_append_drop],
      by rw [List.length_take]; omega⟩
  have htake : (chunksFrom data.length data 0).take (j + 1) = pre ++ [c] := by
    rw [hdec, ← hpre]
    simp [List.take_append_eq_append_take]
  refine ⟨chunksFrom data.length data 0, h3, h2, h1, ?_, ?_, ?_⟩
  · intro htx hrx
    rw [← hpre] at htx hrx
    have hs := sendSeq_write_fail addr c post e rest tail pre port htx hfl hrx
    rw [hsend, htake, hdec, hs]
    exact ⟨rfl, rfl, rfl⟩
  · intro htx hl hk hterm hnok hrx
    rw [← hpre] at hrx
    have hs := sendSeq_bad_response addr c post l term tail hl hk hterm hnok pre port htx hfl hrx
    rw [hsend, htake, hdec, hs]
    exact ⟨rfl, rfl, rfl⟩
  · intro htx hl hk hrx
    rw [← hpre] at hrx
    have hs := sendSeq_bad_response_full addr c post l tail hl hk pre port htx hfl hrx
    rw [hsend, htake, hdec, hs]
    exact ⟨rfl, rfl, rfl⟩

/-- C13, witness: 41 bytes in text mode, cut into 6 chunks.  In the first run
the third write fails, in the second the third response is `"NG"`, in the
third it is a line of 33 bytes `'A'`: all stop with the error after the
commands of the first three chunks. -/
theorem C13_SendTo_fail_fast_witness :
    (∃ chunks : List (List Nat), chunks.length = 6 ∧
      (SendTo (scriptedPort (okLines 2) true [none, none, some (Err.io 5)]) 258
        (List.range 41)).2 = .err (Err.io 5) ∧
      (SendTo (scriptedPort (okLines 2) true [none, none, some (Err.io 5)]) 258
        (List.range 41)).1.Port.tx
        = [] ++ (chunks.take 3).map (fun c => lineBytes (txduCommand true 258 c))) ∧
    (∃ chunks : List (List Nat), chunks.length = 6 ∧
      (SendTo (freshPort (okLines 2 ++ ascii "NG\r\nOK\r\n") true) 258 (List.range 41)).2
        = .err Err.unknownBehaviour ∧
      (SendTo (freshPort (okLines 2 ++ ascii "NG\r\nOK\r\n") true) 258
        (List.range 41)).1.Port.tx
        = [] ++ (chunks.take 3).map (fun c => lineBytes (txduCommand true 258 c)) ∧
      (SendTo (freshPort (okLines 2 ++ ascii "NG\r\nOK\r\n") true) 258
        (List.range 41)).1.Port.rx = rxBytes (ascii "OK\r\n")) ∧
    (∃ chunks : List (List Nat), chunks.length = 6 ∧
      (SendTo (freshPort (okLines 2 ++ List.replicate 33 65 ++ ascii "\r\n") true) 258
        (List.range 41)).2 = .err Err.unknownBehaviour ∧
      (SendTo (freshPort (okLines 2 ++ List.replicate 33 65 ++ ascii "\r\n") true) 258
        (List.range 41)).1.Port.tx
        = [] ++ (chunks.take 3).map (fun c => lineBytes (txduCommand true 258 c)) ∧
      (SendTo (freshPort (okLines 2 ++ List.replicate 33 65 ++ ascii "\r\n") true) 258
        (List.range 41)).1.Port.rx = rxBytes (65 :: ascii "\r\n")) := by
  obtain ⟨chunks, hcl, _, _, hw, _, _⟩ := C13_SendTo_fail_fast
    (scriptedPort (okLines 2) true [none, none, some (Err.io 5)])
    258 (List.range 41) 2 (Err.io 5) [] [] [] [] (by decide) (by decide) rfl
  obtain ⟨chunks2, hcl2, _, _, _, hr, _⟩ := C13_SendTo_fail_fast
    (freshPort (okLines 2 ++ ascii "NG\r\nOK\r\n") true)
    258 (List.range 41) 2 (Err.io 5) [] (ascii "NG") [RxEvent.byte 13, RxEvent.byte 10]
    (rxBytes (ascii "OK\r\n")) (by decide) (by decide) rfl
  obtain ⟨chunks3, hcl3, _, _, _, _, hf⟩ := C13_SendTo_fail_fast
    (freshPort (okLines 2 ++ List.replicate 33 65 ++ ascii "\r\n") true)
    258 (List.range 41) 2 (Err.io 5) [] (List.replicate 32 65) []
    (rxBytes (65 :: ascii "\r\n")) (by decide) (by decide) rfl
  obtain ⟨a1, a2, _⟩ := hw rfl (by decide)
  obtain ⟨b1, b2, b3⟩ := hr rfl (by decide) (by decide) (Or.inr ⟨10, rfl⟩) (by decide) (by decide)
  obtain ⟨c1, c2, c3⟩ := hf rfl (by decide) (by decide) (by decide)
  exact ⟨⟨chunks, hcl, a1, a2⟩, ⟨chunks2, hcl2, b1, b2, b3⟩, ⟨chunks3, hcl3, c1, c2, c3⟩⟩

/-- C14 (the code departs from the claim): in binary mode, on the qualifying
line `"00,0102,30:abc"`, whose payload part `"abc"` has an odd number of
characters, `ReceivePacket` stops with a run-time panic: the store
`data2[i/2] = b` at `i = 2` is out of range, `data2` having `(14-11)/2 = 1`
byte.  The same happens on the payload part `"a"`, where `data2` is empty. -/
theorem C14_ReceivePacket_odd_payload_panics :
    (ReceivePacket (freshPort (ascii "00,0102,30:abc\r\n") false)).2 = .panic ∧
    (ReceivePacket (freshPort (ascii "00,0102,30:a\r\n") false)).2 = .panic := by
  decide

/-- C15 (the code departs from the claim): the response `"12:34"` to `"RDCK"`
matches two of the five fields and the response `"ERR"` matches none, and the
scan returns an error in both cases; yet `GetTime`, the acknowledgment `"OK"`
following, returns no error but the `TimeInfo` values `12:34:00.0` and
`00:00:00.0`, not synchronised.  The test of line 404, `err != nil && n == 5`,
does not hold for any line. -/
theorem C15_GetTime_short_match_no_error :
    SscanfTime (ascii "12:34") = ⟨2, some Err.scan, 12, 34, 0, 0, 0⟩ ∧
    (GetTime (freshPort (ascii "12:34\r\nOK\r\n") false)).2 = .ok ⟨12, 34, 0, 0, false⟩ ∧
    SscanfTime (ascii "ERR") = ⟨0, some Err.scan, 0, 0, 0, 0, 0⟩ ∧
    (GetTime (freshPort (ascii "ERR\r\nOK\r\n") false)).2 = .ok ⟨0, 0, 0, 0, false⟩ ∧
    (∀ str, (if (SscanfTime str).n = 5 then (SscanfTime str).err else none) = none) :=
  ⟨by decide, rfl, by decide, rfl, GetTime_guard_dead⟩

/-- C16: when the input begins with a line `l` of fewer than 11 bytes followed
by its terminator, `ReceivePacket` discards that line: the outcome, result and
final connection state, is the outcome of `ReceivePacket` on the input without
that line and its terminator, whatever the mode. -/
theorem C16_ReceivePacket_skips_short_line (port : Port) (l : List Nat)
    (term tail : List RxEvent)
    (hl : ∀ b ∈ l, b ≠ 0 ∧ b ≠ 13) (hk : l.length < 11) (hterm : IsTerminator term) :
    ReceivePacket (withRx port (rxBytes l ++ term ++ tail))
      = ReceivePacket (withRx port tail) := by
  have hr := ReadLine_term port (List.replicate 32 0) l term tail hl
    (by simp only [List.length_replicate]; omega) hterm
  have hn : ¬ l.length ≥ 11 := by omega
  have htl : 1 ≤ term.length := by
    rcases hterm with h | ⟨x, h⟩ <;> simp [h]
  unfold ReceivePacket
  have hlen : (withRx port (rxBytes l ++ term ++ tail)).Port.rx.length
      = l.length + term.length + tail.length := by
    simp [withRx, rxBytes, Nat.add_assoc]
  rw [hlen]
  show ReceivePacketLoop ((l.length + term.length + tail.length) + 1)
    (withRx port (rxBytes l ++ term ++ tail)) = _
  rw [ReceivePacketLoop, hr]
  simp only [hn, if_false]
  exact ReceivePacketLoop_fuel tail.length (withRx port tail) _ _ (by simp [withRx])
    (by omega) (by simp [withRx])

/-- C16, witness: the line `"OK"` before the line `"00,0102,30:48656c6c6f"`, in
binary mode. -/
theorem C16_ReceivePacket_skips_short_line_witness :
    ReceivePacket (withRx (freshPort [] false)
        (rxBytes (ascii "OK") ++ [RxEvent.byte 13, RxEvent.byte 10]
          ++ rxBytes (ascii "00,0102,30:48656c6c6f\r\n")))
      = ReceivePacket (withRx (freshPort [] false) (rxBytes (ascii "00,0102,30:48656c6c6f\r\n"))) :=
  C16_ReceivePacket_skips_short_line (freshPort [] false) (ascii "OK")
    [RxEvent.byte 13, RxEvent.byte 10] (rxBytes (ascii "00,0102,30:48656c6c6f\r\n"))
    (by decide) (by decide) (Or.inr ⟨10, rfl⟩)

/-- C17: every write that an operation of the driver issues to the byte
stream has at most 32 bytes, for every argument and every connection state:
`Write`, `WriteLine`, `SendTo`, `Broadcast`, `ReadParams`, `SetTextMode`,
`SetBaud`, `SetTime` and `GetTime` only add writes of at most 32 bytes to the
log of the transport, and `CheckResult` and `ReceivePacket` write nothing. -/
theorem C17_writes_at_most_32 (port : Port) (bs data : List Nat) (addr : Int)
    (params : Option Params) (textMode : Bool) (baud h m s : Int) :
    WritesCapped port (Write port bs).1 ∧
    WritesCapped port (WriteLine port bs).1 ∧
    WritesCapped port (SendTo port addr data).1 ∧
    WritesCapped port (Broadcast port data).1 ∧
    WritesCapped port (ReadParams port params).1 ∧
    WritesCapped port (SetTextMode port textMode).1 ∧
    WritesCapped port (SetBaud port baud).1 ∧
    WritesCapped port (SetTime port h m s).1 ∧
    WritesCapped port (GetTime port).1 ∧
    (CheckResult port).1.Port.tx = port.Port.tx ∧
    (ReceivePacket port).1.Port.tx = port.Port.tx :=
  ⟨Write_capped port bs, WriteLine_capped port bs, SendTo_capped port addr data,
    Broadcast_capped port data, ReadParams_capped port params,
    SetTextMode_capped port textMode, SetBaud_capped port baud, SetTime_capped port h m s,
    GetTime_capped port, CheckResult_tx port, ReceivePacketLoop_tx _ port⟩

/-- C18: for every payload of more than 32 bytes in text mode, when every
response line is `"OK"` (and the transport reports no failure), `Broadcast`
returns success after sending `k = ceil(len(payload)/8)` commands, one per
consecutive chunk: the chunks concatenate to the payload, all but the last
have exactly 8 bytes and the last at most 8, and each is written as `"TXDA "`,
the chunk and the terminator.  `CheckResult` runs twice per chunk, once inside
the broadcast of the chunk and once after it, the final chunk included: `2k`
flushes are made and exactly `2k` response lines are consumed. -/
theorem C18_Broadcast_chunks (port : Port) (data : List Nat) (tail : List RxEvent)
    (hmode : port.Config.TextMode = true) (hlen : 32 < data.length)
    (htx : port.Port.txFail = []) (hfl : port.Port.flushFail = [])
    (hrx : port.Port.rx = rxBytes (okLines (2 * ((data.length + 7) / 8))) ++ tail) :
    ∃ chunks : List (List Nat),
      chunks.length = (data.length + 7) / 8 ∧
      (∀ c ∈ chunks, c.length ≤ 8) ∧
      (∀ c ∈ chunks.dropLast, c.length = 8) ∧
      chunks.flatten = data ∧
      (Broadcast port data).2 = .ok () ∧
      (Broadcast port data).1.Port.tx
        = port.Port.tx ++ chunks.map (fun c => ascii "TXDA " ++ c ++ ascii "\r\n") ∧
      (Broadcast port data).1.Port.rx = tail ∧
      (Broadcast port data).1.Port.flushes = port.Port.flushes + 2 * chunks.length := by
  obtain ⟨h1, h2, h3⟩ := chunksFrom_spec data data.length 0 (by omega) (by omega)
  simp only [Nat.sub_zero, List.drop_zero] at h1 h3
  have hrx2 : port.Port.rx
      = rxBytes (okLines (2 * (chunksFrom data.length data 0).length)) ++ tail := by
    rw [h3]; exact hrx
  have hs := BroadcastChunks_ok data data.length port 0 tail hmode htx hfl hrx2
  have hne : ¬ data.length ≤ 32 := by omega
  have hmap : (chunksFrom data.length data 0).map broadcastBytes
      = (chunksFrom data.length data 0).map (fun c => ascii "TXDA " ++ c ++ ascii "\r\n") := by
    apply List.map_congr_left
    intro c hc
    exact broadcastBytes_short c (h2 c hc)
  refine ⟨chunksFrom data.length data 0, h3, h2, chunksFrom_dropLast data data.length 0, h1,
    ?_, ?_, ?_, ?_⟩
  · simp only [Broadcast, hne, if_false, hs]
  · simp only [Broadcast, hne, if_false, hs, afterSendBy, hmap]
  · simp only [Broadcast, hne, if_false, hs, afterSendBy]
  · simp only [Broadcast, hne, if_false, hs, afterSendBy]

/-- C18, witness: a payload of 33 bytes in text mode with ten lines `"OK"`
pending: five chunks, ten result checks. -/
theorem C18_Broadcast_chunks_witness :
    ∃ chunks : List (List Nat),
      chunks.length = 5 ∧
      (∀ c ∈ chunks, c.length ≤ 8) ∧
      (∀ c ∈ chunks.dropLast, c.length = 8) ∧
      chunks.flatten = List.range 33 ∧
      (Broadcast (freshPort (okLines 10) true) (List.range 33)).2 = .ok () ∧
      (Broadcast (freshPort (okLines 10) true) (List.range 33)).1.Port.tx
        = [] ++ chunks.map (fun c => ascii "TXDA " ++ c ++ ascii "\r\n") ∧
      (Broadcast (freshPort (okLines 10) true) (List.range 33)).1.Port.rx = [] ∧
      (Broadcast (freshPort (okLines 10) true) (List.range 33)).1.Port.flushes
        = 0 + 2 * chunks.length :=
  C18_Broadcast_chunks (freshPort (okLines 10) true) (List.range 33) []
    rfl (by decide) rfl rfl (by decide)

/-- C19 (the code departs from the claim): for every address in 0..65535 and
every payload of at most 32 bytes, the single write of `SendTo` is the 9-byte
header `"TXDU "` + address followed by the whole encoded payload only when the
encoded payload has at most 21 bytes.  When it has more (a text payload of 22
bytes or more, a binary payload of 11 bytes or more), `WriteLine` cuts the
command at 30 bytes: the write is the header, the first 21 bytes of the
encoded payload, carriage return and newline, and the rest of the encoded
payload is not written. -/
theorem C19_SendTo_payload_cut (port : Port) (addr : Int) (data : List Nat)
    (h0 : 0 ≤ addr) (h1 : addr ≤ 65535) (hlen : data.length ≤ 32)
    (hb : ∀ b ∈ data, b < 256) :
    ((if port.Config.TextMode then data else data.flatMap hexByte).length ≤ 21 →
      (SendTo port addr data).1.Port.tx
        = port.Port.tx ++ [ascii "TXDU " ++ hex4 addr.toNat
            ++ (if port.Config.TextMode then data else data.flatMap hexByte)]) ∧
    (21 < (if port.Config.TextMode then data else data.flatMap hexByte).length →
      (SendTo port addr data).1.Port.tx
        = port.Port.tx ++ [ascii "TXDU " ++ hex4 addr.toNat
            ++ (if port.Config.TextMode then data else data.flatMap hexByte).take 21
            ++ ascii "\r\n"]) := by
  have htx : (SendTo port addr data).1.Port.tx
      = port.Port.tx ++ [lineBytes (txduSpec port.Config.TextMode addr.toNat data)] := by
    rw [SendTo_of_le port addr data hlen, SendToDirect_tx,
      txduCommand_eq_spec _ addr data h0 h1 hb]
  have h9 : (ascii "TXDU " ++ hex4 addr.toNat).length = 9 := by
    simp only [List.length_append, hex4, List.length_cons, List.length_nil]
    decide
  have hl : (txduSpec port.Config.TextMode addr.toNat data).length
      = 9 + (if port.Config.TextMode then data else data.flatMap hexByte).length := by
    unfold txduSpec
    rw [List.length_append, h9]
  constructor
  · intro hshort
    rw [htx]
    have hn : ¬ (txduSpec port.Config.TextMode addr.toNat data).length > 30 := by omega
    simp only [lineBytes, hn, if_false]
    rfl
  · intro hlong
    rw [htx]
    have hg : (txduSpec port.Config.TextMode addr.toNat data).length > 30 := by omega
    simp only [lineBytes, hg, if_true]
    have htake : (txduSpec port.Config.TextMode addr.toNat data).take 30
        = ascii "TXDU " ++ hex4 addr.toNat
          ++ (if port.Config.TextMode then data else data.flatMap hexByte).take 21 := by
      unfold txduSpec
      rw [List.take_append_eq_append_take, h9, List.take_of_length_le (by omega)]
    rw [htake]

/-- C19, at the failing input: the 22 bytes `0, 1, ..., 21` sent in text mode
to address 258.  The write holds the bytes `0..20`; the byte `21` is lost. -/
theorem C19_SendTo_payload_cut_witness :
    (SendTo (freshPort (ascii "OK\r\n") true) 258 (List.range 22)).1.Port.tx
      = [ascii "TXDU 0102" ++ List.range 21 ++ ascii "\r\n"] :=
  (C19_SendTo_payload_cut (freshPort (ascii "OK\r\n") true) 258 (List.range 22)
    (by decide) (by decide) (by decide) (by decide)).2 (by decide)

end IM920s
